import Mathlib

/-!
Verification of the hypefury-scheduler quality pipeline and retry subsystem.

Strings are modelled as `List Char`.  JavaScript semantics that matter here
are embedded explicitly:
* the character classes of the regexes (`\s`, `\w`, `\d`, `[a-zA-Z]`);
* `String.prototype.trim` / `trimStart`;
* `RegExp.prototype.test` on a regex built with the `g` flag, which is
  stateful: it searches from the stored `lastIndex`, stores the end of a
  match back into `lastIndex`, and resets `lastIndex` to `0` on failure.
  The shared pattern objects of `ARTIFACT_PATTERNS` therefore carry mutable
  state across calls; this state is threaded explicitly as `RegexState`.
Numeric scores are `Int` (penalty subtraction can pass below zero before the
final clamp).  `Math.round(0.3 * pre + 0.7 * post)` is modelled in exact
rational arithmetic as `(3 * pre + 7 * post + 5).fdiv 10`, which is
`floor(x + 1/2)`, the round-half-up rule of `Math.round`.
-/

namespace Hypefury

/-- The JavaScript `\s` class (WhiteSpace plus LineTerminator), by
codepoint: space, tab, LF, VT, FF, CR, NBSP, the Unicode space
separators, LS, PS, and ZWNBSP. -/
def jsWhitespace (c : Char) : Bool :=
  c.toNat = 0x20 || c.toNat = 0x09 || c.toNat = 0x0a || c.toNat = 0x0b ||
  c.toNat = 0x0c || c.toNat = 0x0d || c.toNat = 0xa0 || c.toNat = 0x1680 ||
  (0x2000 ≤ c.toNat && c.toNat ≤ 0x200a) || c.toNat = 0x2028 ||
  c.toNat = 0x2029 || c.toNat = 0x202f || c.toNat = 0x205f ||
  c.toNat = 0x3000 || c.toNat = 0xfeff

/-- The JavaScript `\d` class, `[0-9]` by codepoint. -/
def jsDigit (c : Char) : Bool := 0x30 ≤ c.toNat && c.toNat ≤ 0x39

/-- The regex class `[a-zA-Z]` used by `countLetters`. -/
def asciiLetter (c : Char) : Bool :=
  ('a' ≤ c && c ≤ 'z') || ('A' ≤ c && c ≤ 'Z')

/-- The JavaScript `\w` class: `[A-Za-z0-9_]`. -/
def jsWordChar (c : Char) : Bool := asciiLetter c || jsDigit c || c = '_'

/-- `String.prototype.trimStart`. -/
def jsTrimStart (s : List Char) : List Char := s.dropWhile jsWhitespace

/-- Removal of trailing whitespace (the right half of `trim`). -/
def jsTrimEnd : List Char → List Char
  | [] => []
  | c :: rest =>
    match jsTrimEnd rest with
    | [] => if jsWhitespace c then [] else [c]
    | r :: rs => c :: r :: rs

/-- `String.prototype.trim`. -/
def jsTrim (s : List Char) : List Char := jsTrimEnd (jsTrimStart s)

/-- `content.split(sep)` restricted to the one separator used by the code,
`'\n'`; keeps empty pieces, like the JavaScript method. -/
def splitLines : List Char → List (List Char)
  | [] => [[]]
  | c :: rest =>
    if c = '\n' then [] :: splitLines rest
    else
      match splitLines rest with
      | [] => [[c]]
      | h :: t => (c :: h) :: t

/-- `lines.join(sep)` with separator `'\n'`. -/
def joinLines : List (List Char) → List Char
  | [] => []
  | [l] => l
  | l :: rest => l ++ '\n' :: joinLines rest

end Hypefury

namespace Hypefury

/-- Length of the maximal prefix run of characters satisfying `pred`
(the greedy consumption of a character-class `*` or `+`). -/
def takeRun (pred : Char → Bool) (l : List Char) : Nat :=
  (l.takeWhile pred).length

/-- Whether regex `$` (with the `m` flag) holds after consuming `k`
characters of the suffix `l`: end of input or just before a newline. -/
def dollarAt (l : List Char) (k : Nat) : Bool :=
  match l.drop k with
  | [] => true
  | c :: _ => c = '\n'

/-- Greedy trailing `\s*$`: the largest `m` at most the given bound such
that `$` holds after `m` characters (the backtracking of a greedy `\s*`
followed by `$`). -/
def backtrackDollar (l : List Char) : Nat → Option Nat
  | 0 => if dollarAt l 0 then some 0 else none
  | n + 1 => if dollarAt l (n + 1) then some (n + 1) else backtrackDollar l n

/-- `^Day\s*\d+:?\s*` (flags `gim`) matching at the head of a suffix:
case-insensitive `Day`, then whitespace, one or more digits, an optional
colon and trailing whitespace.  Returns the number of characters consumed. -/
def dayHeaderAt (l : List Char) : Option Nat :=
  match l with
  | c1 :: c2 :: c3 :: rest =>
    if c1.toLower = 'd' && c2.toLower = 'a' && c3.toLower = 'y' then
      let w1 := takeRun jsWhitespace rest
      let r1 := rest.drop w1
      let d := takeRun jsDigit r1
      if d = 0 then none
      else
        let r2 := r1.drop d
        match r2 with
        | ':' :: r3 => some (3 + w1 + d + 1 + takeRun jsWhitespace r3)
        | _ => some (3 + w1 + d + takeRun jsWhitespace r2)
    else none
  | _ => none

/-- A separator line `^c{min,}$` (flags `gm`) at the head of a suffix. -/
def sepLineAt (pred : Char → Bool) (minCount : Nat) (l : List Char) : Option Nat :=
  let n := takeRun pred l
  if minCount ≤ n && dollarAt l n then some n else none

/-- `^[\s]*[•\*\-][\s]*$` (flags `gm`): a stray bullet.  The leading `\s*`
is forced to stop at the first non-whitespace character, which must be a
bullet; the trailing `\s*$` backtracks greedily. -/
def strayBulletAt (l : List Char) : Option Nat :=
  let w := takeRun jsWhitespace l
  match l.drop w with
  | c :: rest =>
    if c = '•' || c = '*' || c = '-' then
      match backtrackDollar rest (takeRun jsWhitespace rest) with
      | some m => some (w + 1 + m)
      | none => none
    else none
  | [] => none

/-- `^\s*\d+[.\)]\s*$` (flags `gm`): an orphaned numbered marker. -/
def orphanedNumberAt (l : List Char) : Option Nat :=
  let w := takeRun jsWhitespace l
  let r1 := l.drop w
  let d := takeRun jsDigit r1
  if d = 0 then none
  else
    match r1.drop d with
    | c :: rest =>
      if c = '.' || c = ')' then
        match backtrackDollar rest (takeRun jsWhitespace rest) with
        | some m => some (w + d + 1 + m)
        | none => none
      else none
    | [] => none

/-- A literal substring pattern (the HTML-entity regexes). -/
def litAt (pat : List Char) (l : List Char) : Option Nat :=
  if pat.isPrefixOf l then some pat.length else none

/-- The class of zero-width characters, `U+200B` to `U+200D`, `U+FEFF`, `U+00AD`. -/
def zeroWidthChar (c : Char) : Bool :=
  (0x200b ≤ c.val && c.val ≤ 0x200d) || c.val = 0xfeff || c.val = 0xad

/-- Single zero-width character match. -/
def zeroWidthAt (l : List Char) : Option Nat :=
  match l with
  | c :: _ => if zeroWidthChar c then some 1 else none
  | [] => none

/-- `\n{3,}` (flag `g`) at the head of a suffix. -/
def excessiveNewlinesAt (l : List Char) : Option Nat :=
  let n := takeRun (fun c => c = '\n') l
  if 3 ≤ n then some n else none

/-- Scan positions `p, p+1, …` of the suffix for the first match of
`matchAt`; `needLS` demands a multiline `^` (position `0` or preceded by a
newline), tracked by the flag `ls`.  Returns match start and end. -/
def scanMatch (matchAt : List Char → Option Nat) (needLS : Bool) :
    Nat → Bool → List Char → Option (Nat × Nat)
  | p, ls, suf =>
    match (if !needLS || ls then matchAt suf else none) with
    | some len => some (p, p + len)
    | none =>
      match suf with
      | [] => none
      | c :: rest => scanMatch matchAt needLS (p + 1) (c = '\n') rest

/-- `RegExp.prototype.test` on a `g`-flag regex: search from `lastIndex`;
on success store the match end back into `lastIndex`, on failure (or
`lastIndex` beyond the string) reset it to `0`. -/
def jsTestG (matchAt : List Char → Option Nat) (needLS : Bool)
    (s : List Char) (li : Nat) : Bool × Nat :=
  if s.length < li then (false, 0)
  else
    let ls := li = 0 || (s.getD (li - 1) ' ') = '\n'
    match scanMatch matchAt needLS li ls (s.drop li) with
    | some (_, e) => (true, e)
    | none => (false, 0)

end Hypefury

namespace Hypefury

/-- The mutable `lastIndex` values of the `g`-flag regex objects shared in
`ARTIFACT_PATTERNS`; they persist across calls of the validators. -/
structure RegexState where
  dayHeaders : Nat
  underscoreSeparators : Nat
  emDashSeparators : Nat
  dashSeparators : Nat
  strayBullets : Nat
  orphanedNumbers : Nat
  nbsp : Nat
  amp : Nat
  lt : Nat
  gt : Nat
  quot : Nat
  apos : Nat
  zeroWidthChars : Nat
  excessiveBlankLines : Nat
  deriving Repr, DecidableEq

/-- A fresh module load: every `lastIndex` is `0`. -/
def RegexState.init : RegexState := ⟨0, 0, 0, 0, 0, 0, 0, 0, 0, 0, 0, 0, 0, 0⟩

/-- `ARTIFACT_PATTERNS.dayHeaders.test(s)`. -/
def testDayHeaders (s : List Char) (σ : RegexState) : Bool × RegexState :=
  let r := jsTestG dayHeaderAt true s σ.dayHeaders
  (r.1, { σ with dayHeaders := r.2 })

/-- `ARTIFACT_PATTERNS.underscoreSeparators.test(s)` (`^[_]{3,}$`, `gm`). -/
def testUnderscoreSeparators (s : List Char) (σ : RegexState) : Bool × RegexState :=
  let r := jsTestG (sepLineAt (fun c => c = '_') 3) true s σ.underscoreSeparators
  (r.1, { σ with underscoreSeparators := r.2 })

/-- `ARTIFACT_PATTERNS.emDashSeparators.test(s)` (`^[—]+$`, `gm`). -/
def testEmDashSeparators (s : List Char) (σ : RegexState) : Bool × RegexState :=
  let r := jsTestG (sepLineAt (fun c => c = '—') 1) true s σ.emDashSeparators
  (r.1, { σ with emDashSeparators := r.2 })

/-- `ARTIFACT_PATTERNS.dashSeparators.test(s)` (`^[-]{2,}$`, `gm`). -/
def testDashSeparators (s : List Char) (σ : RegexState) : Bool × RegexState :=
  let r := jsTestG (sepLineAt (fun c => c = '-') 2) true s σ.dashSeparators
  (r.1, { σ with dashSeparators := r.2 })

/-- `ARTIFACT_PATTERNS.strayBullets.test(s)`. -/
def testStrayBullets (s : List Char) (σ : RegexState) : Bool × RegexState :=
  let r := jsTestG strayBulletAt true s σ.strayBullets
  (r.1, { σ with strayBullets := r.2 })

/-- `ARTIFACT_PATTERNS.orphanedNumbers.test(s)`. -/
def testOrphanedNumbers (s : List Char) (σ : RegexState) : Bool × RegexState :=
  let r := jsTestG orphanedNumberAt true s σ.orphanedNumbers
  (r.1, { σ with orphanedNumbers := r.2 })

/-- `Object.values(ARTIFACT_PATTERNS.htmlEntities).some(p => p.test(s))`:
the six entity regexes tested in object order with `some`-style
short-circuiting (a hit leaves the later `lastIndex` values untouched). -/
def testHtmlEntities (s : List Char) (σ : RegexState) : Bool × RegexState :=
  let r1 := jsTestG (litAt "&nbsp;".toList) false s σ.nbsp
  let σ1 := { σ with nbsp := r1.2 }
  if r1.1 then (true, σ1) else
  let r2 := jsTestG (litAt "&amp;".toList) false s σ1.amp
  let σ2 := { σ1 with amp := r2.2 }
  if r2.1 then (true, σ2) else
  let r3 := jsTestG (litAt "&lt;".toList) false s σ2.lt
  let σ3 := { σ2 with lt := r3.2 }
  if r3.1 then (true, σ3) else
  let r4 := jsTestG (litAt "&gt;".toList) false s σ3.gt
  let σ4 := { σ3 with gt := r4.2 }
  if r4.1 then (true, σ4) else
  let r5 := jsTestG (litAt "&quot;".toList) false s σ4.quot
  let σ5 := { σ4 with quot := r5.2 }
  if r5.1 then (true, σ5) else
  let r6 := jsTestG (litAt "&apos;".toList) false s σ5.apos
  let σ6 := { σ5 with apos := r6.2 }
  (r6.1, σ6)

/-- `ARTIFACT_PATTERNS.zeroWidthChars.test(s)`. -/
def testZeroWidthChars (s : List Char) (σ : RegexState) : Bool × RegexState :=
  let r := jsTestG zeroWidthAt false s σ.zeroWidthChars
  (r.1, { σ with zeroWidthChars := r.2 })

/-- `ARTIFACT_PATTERNS.excessiveBlankLines.test(s)` (`\n{3,}`, `g`). -/
def testExcessiveBlankLines (s : List Char) (σ : RegexState) : Bool × RegexState :=
  let r := jsTestG excessiveNewlinesAt false s σ.excessiveBlankLines
  (r.1, { σ with excessiveBlankLines := r.2 })

/-- Characters of the first garbage class
`[\s\-_•\*—→✓✗\[\](){}|\\\/]`. -/
def garbageSymbolChar (c : Char) : Bool :=
  jsWhitespace c || c = '-' || c = '_' || c = '•' || c = '*' || c = '—' ||
  c = '→' || c = '✓' || c = '✗' || c = '[' || c = ']' || c = '(' ||
  c = ')' || c = '\x7b' || c = '\x7d' || c = '|' || c = '\\' || c = '/'

/-- The second garbage pattern `^\d+[.\-\/]?\s*$` (digits, an optional
punctuation mark, trailing whitespace). -/
def garbageNumeric (t : List Char) : Bool :=
  let d := takeRun jsDigit t
  if d = 0 then false
  else
    let r := t.drop d
    r.all jsWhitespace ||
      (match r with
       | c :: r2 => (c = '.' || c = '-' || c = '/') && r2.all jsWhitespace
       | [] => false)

/-- `isGarbageContent`: the content trimmed, tested against the four
`GARBAGE_PATTERNS` (these regexes have no `g` flag and are stateless). -/
def isGarbageContent (s : List Char) : Bool :=
  let t := jsTrim s
  (!t.isEmpty && t.all garbageSymbolChar) ||
  garbageNumeric t ||
  t.all (fun c => !jsWordChar c) ||
  t.all jsWhitespace

/-- `countLetters`: occurrences of `[a-zA-Z]`. -/
def countLetters (s : List Char) : Nat :=
  (s.filter asciiLetter).length

/-- `countWords`: the trimmed content split on whitespace runs, counting
nonempty pieces. -/
def countWords (s : List Char) : Nat :=
  let t := jsTrim s
  if t.isEmpty then 0
  else
    (t.foldl
      (fun (st : Bool × Nat) c =>
        if jsWhitespace c then (false, st.2)
        else if st.1 then (true, st.2) else (true, st.2 + 1))
      (false, 0)).2

end Hypefury

namespace Hypefury

/-- Issue severities. -/
inductive Severity
  | error
  | warning
  | info
  deriving Repr, DecidableEq

/-- `ISSUE_CODES`. -/
inductive IssueCode
  | EMPTY
  | TOO_SHORT
  | TOO_FEW_LETTERS
  | TOO_FEW_WORDS
  | GARBAGE_CONTENT
  | DAY_HEADER
  | UNDERSCORE_SEP
  | EMDASH_SEP
  | DASH_SEP
  | STRAY_BULLET
  | HTML_ENTITY
  | ZERO_WIDTH
  | EXCESSIVE_BLANKS
  | ORPHANED_MARKER
  deriving Repr, DecidableEq

/-- `QualityIssue`. -/
structure QualityIssue where
  code : IssueCode
  severity : Severity
  description : String
  position : Option (Nat × Nat)
  autoFixable : Bool
  deriving Repr, DecidableEq

/-- `QualityResult`. -/
structure QualityResult where
  isValid : Bool
  score : Int
  issues : List QualityIssue
  corrections : List String
  deriving Repr, DecidableEq

/-- The test `issue.severity === 'error' && !issue.autoFixable` used by the
validators and the orchestrator to recognise fatal issues. -/
def fatalIssue (i : QualityIssue) : Bool :=
  i.severity = Severity.error && !i.autoFixable

/-- Running issue list and score while a validator executes. -/
structure CheckState where
  issues : List QualityIssue
  score : Int
  deriving Repr, DecidableEq

/-- `if (hit) { issues.push(iss); score -= pen; }`. -/
def warnCheck (hit : Bool) (iss : QualityIssue) (pen : Int) (st : CheckState) : CheckState :=
  if hit then ⟨st.issues ++ [iss], st.score - pen⟩ else st

/-- `if (hit) { issues.push(iss); score = Math.max(0, score - pen); }`. -/
def errCheck (hit : Bool) (iss : QualityIssue) (pen : Int) (st : CheckState) : CheckState :=
  if hit then ⟨st.issues ++ [iss], max 0 (st.score - pen)⟩ else st

/-- `preValidate(rawPost)`: raw-content validation; threads the shared
regex state. -/
def preValidate (rawPost : List Char) (σ : RegexState) : QualityResult × RegexState :=
  let trimmed := jsTrim rawPost
  if trimmed.length = 0 then
    (⟨false, 0, [⟨.EMPTY, .error, "Post is empty", none, false⟩], []⟩, σ)
  else if isGarbageContent trimmed then
    (⟨false, 0,
      [⟨.GARBAGE_CONTENT, .error,
        "Content appears to be only symbols/separators with no real text",
        none, false⟩], []⟩, σ)
  else
    let t1 := testDayHeaders rawPost σ
    let st1 := warnCheck t1.1
      ⟨.DAY_HEADER, .warning, "Contains \"Day X:\" header that will be removed", none, true⟩
      5 ⟨[], 100⟩
    let t2 := testUnderscoreSeparators rawPost t1.2
    let st2 := warnCheck t2.1
      ⟨.UNDERSCORE_SEP, .warning, "Contains underscore separator line that will be removed", none, true⟩
      10 st1
    let t3 := testEmDashSeparators rawPost t2.2
    let st3 := warnCheck t3.1
      ⟨.EMDASH_SEP, .warning, "Contains em-dash separator that will be removed", none, true⟩
      10 st2
    let t4 := testDashSeparators rawPost t3.2
    let st4 := warnCheck t4.1
      ⟨.DASH_SEP, .warning, "Contains dash separator that will be removed", none, true⟩
      5 st3
    let t5 := testStrayBullets rawPost t4.2
    let st5 := warnCheck t5.1
      ⟨.STRAY_BULLET, .warning, "Contains empty bullet point(s) that will be removed", none, true⟩
      5 st4
    let t6 := testOrphanedNumbers rawPost t5.2
    let st6 := warnCheck t6.1
      ⟨.ORPHANED_MARKER, .warning, "Contains orphaned numbered list marker(s) that will be removed", none, true⟩
      5 st5
    let t7 := testHtmlEntities rawPost t6.2
    let st7 := warnCheck t7.1
      ⟨.HTML_ENTITY, .info, "Contains HTML entities that will be converted", none, true⟩
      3 st6
    let t8 := testZeroWidthChars rawPost t7.2
    let st8 := warnCheck t8.1
      ⟨.ZERO_WIDTH, .info, "Contains invisible zero-width characters that will be removed", none, true⟩
      2 st7
    let t9 := testExcessiveBlankLines rawPost t8.2
    let st9 := warnCheck t9.1
      ⟨.EXCESSIVE_BLANKS, .info, "Contains excessive consecutive blank lines that will be reduced", none, true⟩
      5 st8
    let st10 := errCheck (trimmed.length < 10)
      ⟨.TOO_SHORT, .error,
        "Post is too short (" ++ toString trimmed.length ++ " chars, minimum 10)",
        none, false⟩
      50 st9
    let lc := countLetters trimmed
    let st11 := errCheck (lc < 3)
      ⟨.TOO_FEW_LETTERS, .error,
        "Post has too few letters (" ++ toString lc ++ ", minimum 3)",
        none, false⟩
      30 st10
    let wc := countWords trimmed
    let st12 := errCheck (wc < 2)
      ⟨.TOO_FEW_WORDS, .error,
        "Post has too few words (" ++ toString wc ++ ", minimum 2)",
        none, false⟩
      20 st11
    let score := max 0 st12.score
    (⟨!st12.issues.any fatalIssue, score, st12.issues, []⟩, t9.2)

/-- The character class of the per-line empty-bullet scan in
`postValidate`.  In the source this regex is mojibake: the file contains
the bytes `c3 a2 e2 82 ac c2 a2` where `•` (`e2 80 a2`) was intended, so
the class is `[U+00E2, U+20AC, U+00A2, *, -]` and does not contain `•`. -/
def mojibakeBulletChar (c : Char) : Bool :=
  c.val = 0xe2 || c.val = 0x20ac || c.val = 0xa2 || c = '*' || c = '-'

/-- `/^[â€¢\*\-][\s]*$/.test(line)` on an already-trimmed line. -/
def emptyBulletLine (t : List Char) : Bool :=
  match t with
  | c :: rest => mojibakeBulletChar c && rest.all jsWhitespace
  | [] => false

/-- `/^\d+[.\)][\s]*$/.test(line)` on an already-trimmed line. -/
def emptyNumberedLine (t : List Char) : Bool :=
  let d := takeRun jsDigit t
  if d = 0 then false
  else
    match t.drop d with
    | c :: rest => (c = '.' || c = ')') && rest.all jsWhitespace
    | [] => false

/-- The per-line loop of `postValidate` over orphaned/empty list items:
each offending line appends an issue and subtracts its penalty, with no
lower clamp.  `i` is the zero-based line index. -/
def lineScan : Nat → List (List Char) → CheckState → CheckState
  | _, [], st => st
  | i, line :: rest, st =>
    let t := jsTrim line
    let st1 := warnCheck (emptyBulletLine t)
      ⟨.STRAY_BULLET, .warning,
        "Empty bullet point on line " ++ toString (i + 1),
        some (i + 1, 0), true⟩
      5 st
    let st2 := warnCheck (emptyNumberedLine t)
      ⟨.ORPHANED_MARKER, .warning,
        "Empty numbered item on line " ++ toString (i + 1),
        some (i + 1, 0), true⟩
      5 st1
    lineScan (i + 1) rest st2

/-- `/\n\n\n/.test(s)` (stateless literal). -/
def hasTripleNewline : List Char → Bool
  | '\n' :: '\n' :: '\n' :: _ => true
  | _ :: rest => hasTripleNewline rest
  | [] => false

/-- `postValidate(processedPost)`: the final quality gate on formatted
content; shares (and threads) the same `ARTIFACT_PATTERNS` regex state. -/
def postValidate (processedPost : List Char) (σ : RegexState) : QualityResult × RegexState :=
  let trimmed := jsTrim processedPost
  if trimmed.length = 0 then
    (⟨false, 0, [⟨.EMPTY, .error, "Post is empty after processing", none, false⟩], []⟩, σ)
  else if isGarbageContent trimmed then
    (⟨false, 0,
      [⟨.GARBAGE_CONTENT, .error, "Post contains only symbols after processing",
        none, false⟩], []⟩, σ)
  else
    let t1 := testDayHeaders processedPost σ
    let st1 := warnCheck t1.1
      ⟨.DAY_HEADER, .warning, "Day header still present after processing", none, true⟩
      5 ⟨[], 100⟩
    let t2 := testUnderscoreSeparators processedPost t1.2
    let st2 := warnCheck t2.1
      ⟨.UNDERSCORE_SEP, .warning, "Underscore separator still present", none, true⟩
      10 st1
    let t3 := testEmDashSeparators processedPost t2.2
    let st3 := warnCheck t3.1
      ⟨.EMDASH_SEP, .warning, "Em-dash separator still present", none, true⟩
      10 st2
    let st4 := lineScan 0 (splitLines processedPost) st3
    let st5 := warnCheck (hasTripleNewline processedPost)
      ⟨.EXCESSIVE_BLANKS, .info, "Contains more than one consecutive blank line", none, true⟩
      5 st4
    let st6 := errCheck (trimmed.length < 10)
      ⟨.TOO_SHORT, .error,
        "Post is too short after processing (" ++ toString trimmed.length ++ " chars, minimum 10)",
        none, false⟩
      50 st5
    let lc := countLetters trimmed
    let st7 := errCheck (lc < 3)
      ⟨.TOO_FEW_LETTERS, .error,
        "Post has too few letters after processing (" ++ toString lc ++ ", minimum 3)",
        none, false⟩
      30 st6
    let wc := countWords trimmed
    let st8 := errCheck (wc < 2)
      ⟨.TOO_FEW_WORDS, .error,
        "Post has too few words after processing (" ++ toString wc ++ ", minimum 2)",
        none, false⟩
      20 st7
    let score := max 0 st8.score
    let hasNonFixable := st8.issues.any fatalIssue
    (⟨!hasNonFixable && decide (50 ≤ score), score, st8.issues, []⟩, t3.2)

end Hypefury

namespace Hypefury

/-- Global (`g`-flag) `String.prototype.replace`: scan left to right,
replacing each successive nonempty match; `ls` tracks multiline `^`.
`fuel` bounds the recursion (each step consumes at least one character). -/
def replaceGo (matchAt : List Char → Option Nat) (needLS : Bool) (repl : List Char) :
    Nat → Bool → List Char → List Char
  | 0, _, suf => suf
  | fuel + 1, ls, suf =>
    match (if !needLS || ls then matchAt suf else none) with
    | some len =>
      if len = 0 then
        match suf with
        | [] => repl
        | c :: rest => repl ++ c :: replaceGo matchAt needLS repl fuel (c = '\n') rest
      else
        repl ++ replaceGo matchAt needLS repl fuel
          (suf.getD (len - 1) ' ' = '\n') (suf.drop len)
    | none =>
      match suf with
      | [] => []
      | c :: rest => c :: replaceGo matchAt needLS repl fuel (c = '\n') rest

/-- `s.replace(pattern, repl)` for a `g`-flag pattern. -/
def jsReplaceAll (matchAt : List Char → Option Nat) (needLS : Bool)
    (repl : List Char) (s : List Char) : List Char :=
  replaceGo matchAt needLS repl (s.length + 1) true s

/-- One `case` of the `autoCorrect` switch: apply a rewrite and record the
correction note only when the text actually changed. -/
def fixStep (f : List Char → List Char) (note : String)
    (st : List Char × List String) : List Char × List String :=
  let r := f st.1
  if r ≠ st.1 then (r, st.2 ++ [note]) else (r, st.2)

/-- The six HTML-entity conversions, applied in source order. -/
def convertHtmlEntities (s : List Char) : List Char :=
  jsReplaceAll (litAt "&apos;".toList) false ['\''] <|
  jsReplaceAll (litAt "&quot;".toList) false ['"'] <|
  jsReplaceAll (litAt "&gt;".toList) false ['>'] <|
  jsReplaceAll (litAt "&lt;".toList) false ['<'] <|
  jsReplaceAll (litAt "&amp;".toList) false ['&'] <|
  jsReplaceAll (litAt "&nbsp;".toList) false [' '] s

/-- One iteration of the `for (const issue of issues)` loop of
`autoCorrect`.  The removal pattern for day headers is
`^Day\s*\d+:?\s*\n*` — since `\s` contains `\n`, its greedy `\s*` already
consumes any trailing newlines, so `dayHeaderAt` describes it exactly. -/
def applyFix (st : List Char × List String) (issue : QualityIssue) :
    List Char × List String :=
  if !issue.autoFixable then st
  else
    match issue.code with
    | .DAY_HEADER =>
      fixStep (jsReplaceAll dayHeaderAt true []) "Removed \"Day X:\" header(s)" st
    | .UNDERSCORE_SEP =>
      fixStep (jsReplaceAll (sepLineAt (fun c => c = '_') 3) true [])
        "Removed underscore separator(s)" st
    | .EMDASH_SEP =>
      fixStep (jsReplaceAll (sepLineAt (fun c => c = '—') 1) true [])
        "Removed em-dash separator(s)" st
    | .DASH_SEP =>
      fixStep (jsReplaceAll (sepLineAt (fun c => c = '-') 2) true [])
        "Removed dash separator(s)" st
    | .STRAY_BULLET =>
      fixStep (jsReplaceAll strayBulletAt true []) "Removed empty bullet point(s)" st
    | .ORPHANED_MARKER =>
      fixStep (jsReplaceAll orphanedNumberAt true []) "Removed orphaned number marker(s)" st
    | .HTML_ENTITY =>
      fixStep convertHtmlEntities "Converted HTML entities to text" st
    | .ZERO_WIDTH =>
      fixStep (jsReplaceAll zeroWidthAt false []) "Removed invisible zero-width characters" st
    | .EXCESSIVE_BLANKS =>
      fixStep (jsReplaceAll excessiveNewlinesAt false ['\n', '\n'])
        "Reduced excessive blank lines" st
    | _ => st

/-- `autoCorrect(content, issues)`: apply the rewrite of every fixable
issue, then trim and collapse residual triple newlines. -/
def autoCorrect (content : List Char) (issues : List QualityIssue) :
    List Char × List String :=
  let st := issues.foldl applyFix (content, [])
  let r := jsTrim st.1
  (jsReplaceAll excessiveNewlinesAt false ['\n', '\n'] r, st.2)

/-- `/^\* /gm`: an asterisk bullet at a line start. -/
def starBulletAt : List Char → Option Nat
  | '*' :: ' ' :: _ => some 2
  | _ => none

/-- `/^- (?=\S)/gm`: a dash bullet at a line start, with a non-whitespace
lookahead that is not consumed. -/
def dashBulletAt : List Char → Option Nat
  | '-' :: ' ' :: c :: _ => if jsWhitespace c then none else some 2
  | _ => none

/-- `normalizeBullets(content)`. -/
def normalizeBullets (content : List Char) : List Char × List String :=
  let r1 := jsReplaceAll starBulletAt true ['•', ' '] content
  let r2 := jsReplaceAll dashBulletAt true ['•', ' '] r1
  if r2 ≠ content then (r2, ["Normalized bullet characters to •"]) else (r2, [])

/-- Removal of trailing spaces and tabs of one line
(`/[ \t]+$/gm` with an empty replacement). -/
def rstripSpaceTab (l : List Char) : List Char :=
  (l.reverse.dropWhile (fun c => c = ' ' || c = '\t')).reverse

/-- The list-item detection of `cleanWhitespace`
(`/^[\s]*[•\*\-✓✗→][\s]/` or `/^[\s]*\d+[.\)]\s/` — note: no `x`, `X`). -/
def cleanListDetect (l : List Char) : Bool :=
  let t := jsTrimStart l
  (match t with
   | c :: d :: _ =>
     (c = '•' || c = '*' || c = '-' || c = '✓' || c = '✗' || c = '→') && jsWhitespace d
   | _ => false) ||
  (let dd := takeRun jsDigit t
   decide (dd ≠ 0) &&
     match t.drop dd with
     | c :: d :: _ => (c = '.' || c = ')') && jsWhitespace d
     | _ => false)

/-- `cleanWhitespace(content)`: strip trailing space/tab per line, then
left-trim each line (the list branch removes the leading `[\s]+` run and
the prose branch calls `trimStart`; both coincide with `jsTrimStart`). -/
def cleanWhitespace (content : List Char) : List Char × List String :=
  let r1 := joinLines ((splitLines content).map rstripSpaceTab)
  let r2 := joinLines ((splitLines r1).map
    (fun line => if cleanListDetect line then jsTrimStart line else jsTrimStart line))
  if r2 ≠ content then (r2, ["Cleaned up whitespace"]) else (r2, [])

/-- The bullet class of `isListItem`: `[•\*\-✓✗xX→]`. -/
def bulletMark (c : Char) : Bool :=
  c = '•' || c = '*' || c = '-' || c = '✓' || c = '✗' || c = 'x' || c = 'X' || c = '→'

/-- `isListItem(line)`: bullet-plus-whitespace or `\d+[.\)]\s`, after a
leading trim. -/
def isListItem (line : List Char) : Bool :=
  let t := jsTrimStart line
  (match t with
   | c :: d :: _ => bulletMark c && jsWhitespace d
   | _ => false) ||
  (let dd := takeRun jsDigit t
   decide (dd ≠ 0) &&
     match t.drop dd with
     | c :: d :: _ => (c = '.' || c = ')') && jsWhitespace d
     | _ => false)

/-- The line loop of `formatPost`.  State: `inList`, `lastWasBlank`,
`lastWasText`, and whether anything has been emitted yet (the source reads
`result.length > 0`).  Produces the emitted lines in order. -/
def fmtGo : Bool → Bool → Bool → Bool → List (List Char) → List (List Char)
  | _, _, _, _, [] => []
  | inList, lastWasBlank, lastWasText, nonempty, line :: rest =>
    let isItem := isListItem line
    let l := if isItem then jsTrimStart line else line
    if (jsTrim l).isEmpty then
      if !lastWasBlank && nonempty then
        [] :: fmtGo inList true lastWasText nonempty rest
      else fmtGo inList lastWasBlank lastWasText nonempty rest
    else if isItem then
      (if !inList && nonempty && !lastWasBlank then [[]] else []) ++
        l :: fmtGo true false false true rest
    else
      (if inList && !lastWasBlank then [[]]
       else if lastWasText && !lastWasBlank then [[]]
       else []) ++
        l :: fmtGo false false true true rest

/-- `formatPost(post)`: split into lines, run the spacing state machine,
join and trim. -/
def formatPost (post : List Char) : List Char :=
  jsTrim (joinLines (fmtGo false false false false (splitLines post)))

end Hypefury

namespace Hypefury

/-- Pipeline stages. -/
inductive Stage
  | preValidation
  | autoCorrection
  | formatting
  | postValidation
  | complete
  deriving Repr, DecidableEq

/-- `PipelineResult`. -/
structure PipelineResult where
  originalContent : List Char
  processedContent : List Char
  isValid : Bool
  qualityScore : Int
  allIssues : List QualityIssue
  corrections : List String
  stage : Stage
  rejectionReason : Option String
  deriving Repr, DecidableEq

/-- `[...new Set(xs)]`: deduplication keeping first occurrences in order. -/
def dedupKeepFirst : List String → List String
  | [] => []
  | x :: rest => x :: (dedupKeepFirst rest).filter (fun y => y ≠ x)

/-- The early-rejection branch of `runQualityPipeline`: a fatal
pre-validation issue returns the raw content unchanged at stage
`pre-validation`. -/
def runQualityPipelineEarly (rawContent : List Char) (σ : RegexState) :
    PipelineResult × RegexState :=
  let pre := preValidate rawContent σ
  (⟨rawContent, rawContent, false, pre.1.score, pre.1.issues, [],
    Stage.preValidation,
    some (String.intercalate "; "
      ((pre.1.issues.filter fatalIssue).map (fun i => i.description)))⟩, pre.2)

/-- Stage 2a of the main branch: `autoCorrect` for the fixable
pre-validation issues (skipped when there are none). -/
def pipelineStep1 (rawContent : List Char) (σ : RegexState) : List Char × List String :=
  let fixable := (preValidate rawContent σ).1.issues.filter (fun i => i.autoFixable)
  if fixable.length > 0 then autoCorrect rawContent fixable else (rawContent, [])

/-- Stage 2b: unconditional bullet normalization. -/
def pipelineStep2 (rawContent : List Char) (σ : RegexState) : List Char × List String :=
  normalizeBullets (pipelineStep1 rawContent σ).1

/-- Stage 2c: unconditional whitespace cleanup. -/
def pipelineStep3 (rawContent : List Char) (σ : RegexState) : List Char × List String :=
  cleanWhitespace (pipelineStep2 rawContent σ).1

/-- Stage 3: the content handed to `postValidate`. -/
def pipelineFormatted (rawContent : List Char) (σ : RegexState) : List Char :=
  formatPost (pipelineStep3 rawContent σ).1

/-- Stage 4b: if post-validation reports fixable issues, one extra
`autoCorrect` plus re-format pass; otherwise the formatted content. -/
def pipelineStep4 (rawContent : List Char) (σ : RegexState) : List Char × List String :=
  let formatted := pipelineFormatted rawContent σ
  let postFixable := (postValidate formatted (preValidate rawContent σ).2).1.issues.filter
    (fun i => i.autoFixable)
  if postFixable.length > 0 then
    let fr := autoCorrect formatted postFixable
    (formatPost fr.1, fr.2)
  else (formatted, [])

/-- Stage 4a: the post-validation result and its regex state. -/
def pipelinePostResult (rawContent : List Char) (σ : RegexState) :
    QualityResult × RegexState :=
  postValidate (pipelineFormatted rawContent σ) (preValidate rawContent σ).2

/-- Step 5: `Math.round(preScore * 0.3 + postScore * 0.7)` in exact
arithmetic (round half up). -/
def pipelineFinalScore (rawContent : List Char) (σ : RegexState) : Int :=
  (3 * (preValidate rawContent σ).1.score +
    7 * (pipelinePostResult rawContent σ).1.score + 5).fdiv 10

/-- `isValid = postResult.isValid && finalScore >= 50`. -/
def pipelineIsValid (rawContent : List Char) (σ : RegexState) : Bool :=
  (pipelinePostResult rawContent σ).1.isValid &&
    decide (50 ≤ pipelineFinalScore rawContent σ)

/-- The accumulated issues of both validation passes, in push order. -/
def pipelineAllIssues (rawContent : List Char) (σ : RegexState) : List QualityIssue :=
  (preValidate rawContent σ).1.issues ++ (pipelinePostResult rawContent σ).1.issues

/-- The accumulated corrections of all correction passes, in push order. -/
def pipelineAllCorrections (rawContent : List Char) (σ : RegexState) : List String :=
  (pipelineStep1 rawContent σ).2 ++ (pipelineStep2 rawContent σ).2 ++
    (pipelineStep3 rawContent σ).2 ++ (pipelineStep4 rawContent σ).2

/-- The rejection reason of an invalid non-early result: joined error
descriptions, or the low-score message. -/
def pipelineRejectionReason (rawContent : List Char) (σ : RegexState) : Option String :=
  if pipelineIsValid rawContent σ then none
  else
    let errorIssues := (pipelineAllIssues rawContent σ).filter
      (fun i => i.severity = Severity.error)
    if errorIssues.length > 0 then
      some (String.intercalate "; " (errorIssues.map (fun i => i.description)))
    else if pipelineFinalScore rawContent σ < 50 then
      some ("Quality score too low (" ++ toString (pipelineFinalScore rawContent σ) ++ "/100)")
    else none

/-- The main branch of `runQualityPipeline`: corrections, formatting,
post-validation, one optional fix-and-reformat pass, score blending.  The
in-line intermediate values of the source function are the defs above. -/
def runQualityPipelineMain (rawContent : List Char) (σ : RegexState) :
    PipelineResult × RegexState :=
  (⟨rawContent, jsTrim (pipelineStep4 rawContent σ).1, pipelineIsValid rawContent σ,
    pipelineFinalScore rawContent σ, pipelineAllIssues rawContent σ,
    dedupKeepFirst (pipelineAllCorrections rawContent σ), Stage.complete,
    pipelineRejectionReason rawContent σ⟩, (pipelinePostResult rawContent σ).2)

/-- `runQualityPipeline(rawContent)`: the four-stage orchestrator, with the
shared regex state threaded through both validators.  The two branches of
the source function are the two defs above. -/
def runQualityPipeline (rawContent : List Char) (σ : RegexState) :
    PipelineResult × RegexState :=
  if (preValidate rawContent σ).1.issues.any fatalIssue then
    runQualityPipelineEarly rawContent σ
  else
    runQualityPipelineMain rawContent σ

end Hypefury

namespace Hypefury

/-- Post lifecycle statuses. -/
inductive PostStatus
  | queued
  | sent
  | failed
  | rejected
  | permanently_failed
  deriving Repr, DecidableEq

/-- A row of the `posts` table.  Timestamps are milliseconds since the
epoch (the stored ISO-8601 strings are order-isomorphic to these). -/
structure Post where
  id : Nat
  operation_id : Nat
  client_id : Nat
  original_content : String
  processed_content : String
  quality_score : Int
  issues_detected : String
  corrections_applied : String
  status : PostStatus
  hypefury_response : Option String
  retry_count : Nat
  next_retry_at : Option Nat
  created_at : Nat
  sent_at : Option Nat
  deriving Repr, DecidableEq

/-- `SELECT * FROM posts WHERE id = ?` (first row). -/
def getPostById (posts : List Post) (postId : Nat) : Option Post :=
  posts.find? (fun p => p.id = postId)

/-- `UPDATE posts SET … WHERE id = ?`: rewrite every row with the id. -/
def updatePostWhere (posts : List Post) (postId : Nat) (f : Post → Post) : List Post :=
  posts.map (fun p => if p.id = postId then f p else p)

/-- `markPostSent(postId, response)`. -/
def markPostSent (posts : List Post) (postId : Nat) (response : String) (now : Nat) : List Post :=
  updatePostWhere posts postId (fun p =>
    { p with status := PostStatus.sent, sent_at := some now,
             hypefury_response := some response })

/-- `markPostFailed(postId, errorMessage, nextRetryAt)`: sets status
`failed`, increments `retry_count`, stores the next retry time. -/
def markPostFailed (posts : List Post) (postId : Nat) (errorMessage : String)
    (nextRetryAt : Nat) : List Post :=
  updatePostWhere posts postId (fun p =>
    { p with status := PostStatus.failed, retry_count := p.retry_count + 1,
             next_retry_at := some nextRetryAt,
             hypefury_response := some errorMessage })

/-- `markPostPermanentlyFailed(postId, errorMessage)`: sets status and the
response message.  The source statement does not touch `next_retry_at`. -/
def markPostPermanentlyFailed (posts : List Post) (postId : Nat)
    (errorMessage : String) : List Post :=
  updatePostWhere posts postId (fun p =>
    { p with status := PostStatus.permanently_failed,
             hypefury_response := some errorMessage })

/-- `RETRY_DELAYS` (seconds). -/
def RETRY_DELAYS : List Nat := [30, 60, 120, 300, 600, 1800, 3600]

/-- `MAX_RETRIES = RETRY_DELAYS.length`. -/
def MAX_RETRIES : Nat := RETRY_DELAYS.length

/-- `addToRetryQueue(postId, errorMessage)` at time `now` (ms): load the
post, bump the count; beyond `MAX_RETRIES` mark permanently failed and
report `false`, otherwise schedule `now + delay * 1000` via
`markPostFailed` and report `true`. -/
def addToRetryQueue (posts : List Post) (postId : Nat) (errorMessage : String)
    (now : Nat) : Bool × List Post :=
  match getPostById posts postId with
  | none => (false, posts)
  | some post =>
    let newRetryCount := post.retry_count + 1
    if MAX_RETRIES < newRetryCount then
      (false, markPostPermanentlyFailed posts postId
        ("Max retries (" ++ toString MAX_RETRIES ++ ") exceeded. Last error: " ++
          errorMessage))
    else
      let delayIndex := min (newRetryCount - 1) (RETRY_DELAYS.length - 1)
      let delaySeconds := RETRY_DELAYS.getD delayIndex 0
      let nextRetryAt := now + delaySeconds * 1000
      (true, markPostFailed posts postId errorMessage nextRetryAt)

/-- The `WHERE` clause of `getPostsDueForRetry`:
`status = 'failed' AND next_retry_at <= now` (`NULL` compares false). -/
def dueForRetry (p : Post) (now : Nat) : Bool :=
  p.status = PostStatus.failed &&
    match p.next_retry_at with
    | some t => t ≤ now
    | none => false

/-- Stable insertion for `ORDER BY next_retry_at ASC`. -/
def insertByRetryAt (x : Post) : List Post → List Post
  | [] => [x]
  | y :: rest =>
    if x.next_retry_at.getD 0 ≤ y.next_retry_at.getD 0 then x :: y :: rest
    else y :: insertByRetryAt x rest

/-- `ORDER BY next_retry_at ASC` as insertion sort. -/
def sortByRetryAt (l : List Post) : List Post :=
  l.foldr insertByRetryAt []

/-- `getPostsDueForRetry(limit)` at time `now`. -/
def getPostsDueForRetry (posts : List Post) (now : Nat) (limit : Nat) : List Post :=
  (sortByRetryAt (posts.filter (fun p => dueForRetry p now))).take limit

/-- Operation statuses.  `mixed` stands for the status string of a run
with both successes and failures (a keyword in Lean prevents using the
exact source word). -/
inductive OperationStatus
  | pending
  | processing
  | completed
  | mixed
  | failed
  deriving Repr, DecidableEq

/-- A row of the `operations` table. -/
structure Operation where
  id : Nat
  client_id : Nat
  operation_type : String
  source_url : Option String
  total_posts : Nat
  successful_posts : Nat
  failed_posts : Nat
  corrected_posts : Nat
  rejected_posts : Nat
  status : OperationStatus
  error_message : Option String
  started_at : Nat
  completed_at : Option Nat
  deriving Repr, DecidableEq

/-- The counts record taken by `completeOperation`. -/
structure FinalCounts where
  successful : Nat
  failed : Nat
  corrected : Nat
  rejected : Nat
  deriving Repr, DecidableEq

/-- `completeOperation(operationId, counts)` at time `now`: derive the
final status (`completed`, downgraded to `partial`/`failed` when anything
failed or was rejected) and write counts, status and `completed_at`. -/
def completeOperation (ops : List Operation) (operationId : Nat)
    (counts : FinalCounts) (now : Nat) : List Operation :=
  let status :=
    if 0 < counts.failed || 0 < counts.rejected then
      if 0 < counts.successful then OperationStatus.mixed else OperationStatus.failed
    else OperationStatus.completed
  ops.map (fun op =>
    if op.id = operationId then
      { op with successful_posts := counts.successful,
                failed_posts := counts.failed,
                corrected_posts := counts.corrected,
                rejected_posts := counts.rejected,
                status := status,
                completed_at := some now }
    else op)

end Hypefury

namespace Hypefury

theorem getPostById_updatePostWhere (posts : List Post) (postId : Nat) (f : Post → Post)
    (hid : ∀ p, (f p).id = p.id) :
    getPostById (updatePostWhere posts postId f) postId =
      (getPostById posts postId).map f := by
  induction posts with
  | nil => rfl
  | cons p rest ih =>
    by_cases h : p.id = postId
    · simp [getPostById, updatePostWhere, List.find?, h, hid]
    · simp only [getPostById, updatePostWhere, List.map] at ih ⊢
      simp [List.find?, h, ih]

theorem mem_insertByRetryAt {q x : Post} {l : List Post} :
    q ∈ insertByRetryAt x l → q = x ∨ q ∈ l := by
  induction l with
  | nil => simp [insertByRetryAt]
  | cons y rest ih =>
    simp only [insertByRetryAt]
    split
    · intro h
      simpa using h
    · intro h
      rcases List.mem_cons.1 h with h | h
      · right; exact List.mem_cons.2 (Or.inl h)
      · rcases ih h with h | h
        · exact Or.inl h
        · exact Or.inr (List.mem_cons.2 (Or.inr h))

theorem mem_sortByRetryAt {q : Post} {l : List Post} :
    q ∈ sortByRetryAt l → q ∈ l := by
  induction l with
  | nil => simp [sortByRetryAt]
  | cons y rest ih =>
    intro h
    rcases mem_insertByRetryAt h with h | h
    · simp [h]
    · exact List.mem_cons.2 (Or.inr (ih h))

theorem status_of_mem_due {posts : List Post} {now limit : Nat} {q : Post} :
    q ∈ getPostsDueForRetry posts now limit → q.status = PostStatus.failed := by
  intro h
  have h1 : q ∈ sortByRetryAt (posts.filter (fun p => dueForRetry p now)) :=
    List.mem_of_mem_take h
  have h2 : q ∈ posts.filter (fun p => dueForRetry p now) := mem_sortByRetryAt h1
  have h3 : dueForRetry q now = true := (List.mem_filter.1 h2).2
  unfold dueForRetry at h3
  rw [Bool.and_eq_true] at h3
  exact of_decide_eq_true h3.1

theorem status_of_mem_permfail {posts : List Post} {postId : Nat} {msg : String} {q : Post} :
    q ∈ markPostPermanentlyFailed posts postId msg → q.id = postId →
      q.status = PostStatus.permanently_failed := by
  intro hmem hid
  unfold markPostPermanentlyFailed updatePostWhere at hmem
  rcases List.mem_map.1 hmem with ⟨p, _, heq⟩
  by_cases h : p.id = postId
  · simp only [h, if_pos] at heq
    rw [← heq]
  · simp only [h, if_neg, if_false] at heq
    rw [← heq] at hid
    exact absurd hid h

end Hypefury

namespace Hypefury

/-- A queued-then-failed post that has never been retried. -/
def postFresh : Post :=
  ⟨1, 1, 1, "orig", "text", 90, "[]", "[]", PostStatus.failed, none, 0, none, 0, none⟩

/-- A post whose stored retry count has reached `MAX_RETRIES`, with a
stale scheduled retry time. -/
def postSpent : Post :=
  { postFresh with retry_count := 7, next_retry_at := some 123456 }

/-- An operation still processing. -/
def opFresh : Operation :=
  ⟨1, 1, "bulk", none, 3, 0, 0, 0, 0, OperationStatus.processing, none, 0, none⟩

/-- Claim C5: the k-th successful call of `addToRetryQueue` for a post
schedules `nextRetryAt = now + table[min(k-1, table.length-1)]` seconds
(stored in milliseconds), where the table is exactly
`[30, 60, 120, 300, 600, 1800, 3600]` and `maxRetries` is its length 7;
the call succeeds and bumps `retry_count` to `k`. -/
theorem addToRetryQueue_backoff (posts : List Post) (postId : Nat) (msg : String)
    (now : Nat) (post : Post) (k : Nat)
    (hfind : getPostById posts postId = some post)
    (hk : 1 ≤ k) (hcount : post.retry_count = k - 1) (hle : k ≤ MAX_RETRIES) :
    RETRY_DELAYS = [30, 60, 120, 300, 600, 1800, 3600] ∧
    MAX_RETRIES = 7 ∧
    (addToRetryQueue posts postId msg now).1 = true ∧
    getPostById (addToRetryQueue posts postId msg now).2 postId =
      some { post with
        status := PostStatus.failed,
        retry_count := k,
        next_retry_at :=
          some (now + (RETRY_DELAYS.getD (min (k - 1) (RETRY_DELAYS.length - 1)) 0) * 1000),
        hypefury_response := some msg } := by
  have hmax : MAX_RETRIES = 7 := rfl
  have hcount' : post.retry_count + 1 = k := by omega
  have hcond : ¬ (MAX_RETRIES < post.retry_count + 1) := by omega
  refine ⟨rfl, rfl, ?_, ?_⟩
  · simp only [addToRetryQueue, hfind, if_neg hcond]
  · simp only [addToRetryQueue, hfind, if_neg hcond, markPostFailed]
    rw [getPostById_updatePostWhere posts postId, hfind]
    · simp only [Option.map_some']
      rw [hcount']
    · intro p
      rfl

/-- Witness for C5 at a concrete store: the first retry of a fresh post is
scheduled 30 seconds out. -/
theorem addToRetryQueue_backoff_witness :
    RETRY_DELAYS = [30, 60, 120, 300, 600, 1800, 3600] ∧
    MAX_RETRIES = 7 ∧
    (addToRetryQueue [postFresh] 1 "err" 1000).1 = true ∧
    getPostById (addToRetryQueue [postFresh] 1 "err" 1000).2 1 =
      some { postFresh with
        status := PostStatus.failed,
        retry_count := 1,
        next_retry_at :=
          some (1000 + (RETRY_DELAYS.getD (min (1 - 1) (RETRY_DELAYS.length - 1)) 0) * 1000),
        hypefury_response := some "err" } :=
  addToRetryQueue_backoff [postFresh] 1 "err" 1000 postFresh 1
    (by decide) (by decide) (by decide) (by decide)

/-- Claim C2 (amended): with `retry_count` already at `MAX_RETRIES`, the
next `addToRetryQueue` call reports failure, forces every row with the id
to `permanently_failed`, leaves `next_retry_at` unchanged (it is not
cleared), and the post is never again returned as due for retry. -/
theorem addToRetryQueue_exhausted (posts : List Post) (postId : Nat) (msg : String)
    (now : Nat) (post : Post)
    (hfind : getPostById posts postId = some post)
    (hcount : post.retry_count = MAX_RETRIES) :
    (addToRetryQueue posts postId msg now).1 = false ∧
    (∀ q ∈ (addToRetryQueue posts postId msg now).2, q.id = postId →
      q.status = PostStatus.permanently_failed) ∧
    (getPostById (addToRetryQueue posts postId msg now).2 postId).map
        (fun q => q.next_retry_at) = some post.next_retry_at ∧
    (∀ now' limit : Nat,
      ∀ q ∈ getPostsDueForRetry (addToRetryQueue posts postId msg now).2 now' limit,
        q.id ≠ postId) := by
  have hcond : MAX_RETRIES < post.retry_count + 1 := by omega
  have hstore : (addToRetryQueue posts postId msg now).2 =
      markPostPermanentlyFailed posts postId
        ("Max retries (" ++ toString MAX_RETRIES ++ ") exceeded. Last error: " ++ msg) := by
    simp only [addToRetryQueue, hfind, if_pos hcond]
  refine ⟨?_, ?_, ?_, ?_⟩
  · simp only [addToRetryQueue, hfind, if_pos hcond]
  · intro q hq hid
    rw [hstore] at hq
    exact status_of_mem_permfail hq hid
  · rw [hstore]
    unfold markPostPermanentlyFailed
    rw [getPostById_updatePostWhere posts postId, hfind]
    · rfl
    · intro p
      rfl
  · intro now' limit q hq hid
    have hs := status_of_mem_due hq
    rw [hstore] at hq
    have hmem : q ∈ markPostPermanentlyFailed posts postId
        ("Max retries (" ++ toString MAX_RETRIES ++ ") exceeded. Last error: " ++ msg) := by
      have h1 := List.mem_of_mem_take hq
      have h2 := mem_sortByRetryAt h1
      exact (List.mem_filter.1 h2).1
    have := status_of_mem_permfail hmem hid
    rw [this] at hs
    exact absurd hs (by decide)

/-- Witness for the amended C2 at a concrete store. -/
theorem addToRetryQueue_exhausted_witness :
    (addToRetryQueue [postSpent] 1 "boom" 999).1 = false ∧
    (∀ q ∈ (addToRetryQueue [postSpent] 1 "boom" 999).2, q.id = 1 →
      q.status = PostStatus.permanently_failed) ∧
    (getPostById (addToRetryQueue [postSpent] 1 "boom" 999).2 1).map
        (fun q => q.next_retry_at) = some postSpent.next_retry_at ∧
    (∀ now' limit : Nat,
      ∀ q ∈ getPostsDueForRetry (addToRetryQueue [postSpent] 1 "boom" 999).2 now' limit,
        q.id ≠ 1) :=
  addToRetryQueue_exhausted [postSpent] 1 "boom" 999 postSpent (by decide) (by decide)

/-- Counterexample to C2 as stated: after the exhausting call the post is
`permanently_failed` but `next_retry_at` still holds its stale value
`some 123456` — it is not cleared. -/
theorem addToRetryQueue_exhausted_keeps_next_retry_at :
    ((addToRetryQueue [postSpent] 1 "err" 999).2.map
      (fun q => (q.status, q.next_retry_at))) =
      [(PostStatus.permanently_failed, some 123456)] := by
  decide

/-- Claim C9: `completeOperation` writes the final counts, a completion
timestamp, and the derived status: `completed` when nothing failed or was
rejected, `mixed` (source string `partial`) when there were successes and
failures/rejections, `failed` when nothing succeeded. -/
theorem completeOperation_status (ops : List Operation) (operationId : Nat)
    (counts : FinalCounts) (now : Nat) :
    ∀ op ∈ completeOperation ops operationId counts now, op.id = operationId →
      op.status =
        (if counts.failed = 0 ∧ counts.rejected = 0 then OperationStatus.completed
         else if 0 < counts.successful then OperationStatus.mixed
         else OperationStatus.failed) ∧
      op.completed_at = some now ∧
      op.successful_posts = counts.successful ∧
      op.failed_posts = counts.failed ∧
      op.corrected_posts = counts.corrected ∧
      op.rejected_posts = counts.rejected := by
  intro op hop hid
  unfold completeOperation at hop
  rcases List.mem_map.1 hop with ⟨op0, _, heq⟩
  by_cases h : op0.id = operationId
  · simp only [h, if_pos] at heq
    subst heq
    refine ⟨?_, rfl, rfl, rfl, rfl, rfl⟩
    by_cases hfr : 0 < counts.failed ∨ 0 < counts.rejected
    · have h1 : (decide (0 < counts.failed) || decide (0 < counts.rejected)) = true := by
        rcases hfr with h | h <;> simp [h]
      have h2 : ¬ (counts.failed = 0 ∧ counts.rejected = 0) := by omega
      rw [if_neg h2]
      simp only [h1, if_true]
    · have h1 : (decide (0 < counts.failed) || decide (0 < counts.rejected)) = false := by
        push_neg at hfr
        simp [Nat.le_zero.1 hfr.1, Nat.le_zero.1 hfr.2]
      have h2 : counts.failed = 0 ∧ counts.rejected = 0 := by omega
      rw [if_pos h2]
      simp only [h1, if_false]
      rfl
  · simp only [h, if_neg, if_false] at heq
    subst heq
    exact absurd hid h

/-- Witness for C9 at a concrete operation: 2 successes and 1 rejection
give status `mixed` with the timestamp set. -/
theorem completeOperation_status_witness :
    (opFresh ∈ completeOperation [opFresh] 1 ⟨2, 0, 1, 1⟩ 500 → False) ∧
    (∀ op ∈ completeOperation [opFresh] 1 ⟨2, 0, 1, 1⟩ 500,
      op.status = OperationStatus.mixed ∧ op.completed_at = some 500) := by
  constructor
  · decide
  · intro op hop
    have h := completeOperation_status [opFresh] 1 ⟨2, 0, 1, 1⟩ 500 op hop
    have hid : op.id = 1 := by
      unfold completeOperation at hop
      rcases List.mem_map.1 hop with ⟨op0, h0, heq⟩
      have : op0 = opFresh := by simpa using h0
      subst this
      rw [← heq]
      decide
    have h2 := h hid
    refine ⟨?_, h2.2.1⟩
    rw [h2.1]
    decide

end Hypefury

namespace Hypefury

/-- The failing input of C1: a chunk whose day header is detected on a
fresh regex state but missed on the state the first call leaves behind. -/
def day1ab : List Char := "Day 1: ab".toList

/-- Claim C1 (code bug, evaluated at the failing input): two successive
calls of `runQualityPipeline` on the same string return different results
— the first reports the day header (score 45), the second does not
(score 50), because the shared `g`-flag regexes keep `lastIndex` across
calls.  The claim (and the spec) promise a pure function of the input. -/
theorem runQualityPipeline_not_pure :
    (runQualityPipeline day1ab RegexState.init).1.qualityScore = 45 ∧
    (runQualityPipeline day1ab
      (runQualityPipeline day1ab RegexState.init).2).1.qualityScore = 50 ∧
    (runQualityPipeline day1ab RegexState.init).1.allIssues.any
      (fun i => i.code = IssueCode.DAY_HEADER) = true ∧
    (runQualityPipeline day1ab
      (runQualityPipeline day1ab RegexState.init).2).1.allIssues.any
      (fun i => i.code = IssueCode.DAY_HEADER) = false := by
  decide

/-- The failing input of C4: formatted content whose last line is a lone
`•` bullet. -/
def bulletProbe : List Char := "Hello world this is fine\n\n•".toList

/-- The same content with a lone `*`, which the mojibake class matches. -/
def bulletProbeStar : List Char := "Hello world this is fine\n\n*".toList

/-- Claim C4 (code bug, evaluated at the failing input): the per-line
empty-bullet scan of `postValidate` does not flag a line consisting of the
bullet glyph `•` (score stays 100, no STRAY_BULLET issue), because the
character class in the source is mojibake (`â€¢` instead of `•`); a lone
`*` line is flagged and costs the 5-point strayBullet penalty. -/
theorem postValidate_mojibake_bullet :
    (postValidate bulletProbe RegexState.init).1.issues.any
      (fun i => i.code = IssueCode.STRAY_BULLET) = false ∧
    (postValidate bulletProbe RegexState.init).1.score = 100 ∧
    (postValidate bulletProbeStar RegexState.init).1.issues.any
      (fun i => i.code = IssueCode.STRAY_BULLET) = true ∧
    (postValidate bulletProbeStar RegexState.init).1.score = 95 := by
  decide

/-- The counterexample input of C3: a fatal TOO_SHORT chunk. -/
def shortChunk : List Char := "ab cd".toList

/-- Counterexample to C3 as stated: `"ab cd"` draws a fatal (error,
non-fixable) TOO_SHORT issue, yet `runQualityPipeline` returns quality
score 50, not 0. -/
theorem fatal_issue_nonzero_score :
    (runQualityPipeline shortChunk RegexState.init).1.allIssues.any fatalIssue = true ∧
    (runQualityPipeline shortChunk RegexState.init).1.isValid = false ∧
    (runQualityPipeline shortChunk RegexState.init).1.qualityScore = 50 := by
  decide

/-- The counterexample input of C6: two list items, the second a stray
bullet with trailing whitespace. -/
def strayTailPost : List Char := "- a\n- ".toList

/-- Counterexample to C6 as stated: `formatPost` is not idempotent.  On
`"- a\n- "` the first pass keeps the stray item and the final trim turns
it to a bare `-`, which the second pass treats as prose and separates with
a blank line. -/
theorem formatPost_not_idempotent :
    formatPost (formatPost strayTailPost) ≠ formatPost strayTailPost ∧
    formatPost strayTailPost = "- a\n-".toList ∧
    formatPost (formatPost strayTailPost) = "- a\n\n-".toList := by
  decide

/-- The counterexample input of C10: real text with no ASCII word
characters at all. -/
def cyrillicChunk : List Char := "Привет, мир!".toList

/-- Counterexample to C10 as stated: a non-Latin chunk has fewer than 3
ASCII letters, but `preValidate` rejects it as GARBAGE_CONTENT (the
`^[^\w]*$` garbage pattern) before the letter check ever runs, so no
TOO_FEW_LETTERS issue is appended. -/
theorem fewLetters_garbage_no_letter_issue :
    countLetters (jsTrim cyrillicChunk) = 0 ∧
    (preValidate cyrillicChunk RegexState.init).1.issues.any
      (fun i => i.code = IssueCode.TOO_FEW_LETTERS) = false ∧
    (preValidate cyrillicChunk RegexState.init).1.issues.any
      (fun i => i.code = IssueCode.GARBAGE_CONTENT) = true := by
  decide

end Hypefury

namespace Hypefury

theorem dropWhile_idem (p : Char → Bool) (l : List Char) :
    (l.dropWhile p).dropWhile p = l.dropWhile p := by
  induction l with
  | nil => rfl
  | cons c rest ih =>
    by_cases h : p c
    · simp [List.dropWhile_cons, h, ih]
    · simp [List.dropWhile_cons, h]

theorem jsTrimStart_idem (s : List Char) : jsTrimStart (jsTrimStart s) = jsTrimStart s :=
  dropWhile_idem jsWhitespace s

theorem jsTrimEnd_cons (c : Char) (l : List Char) :
    jsTrimEnd (c :: l) =
      match jsTrimEnd l with
      | [] => if jsWhitespace c then [] else [c]
      | r :: rs => c :: r :: rs := rfl

theorem jsTrimEnd_append_not_ws {d : Char} (init : List Char)
    (hd : jsWhitespace d = false) : jsTrimEnd (init ++ [d]) = init ++ [d] := by
  induction init with
  | nil => simp [jsTrimEnd, hd]
  | cons c rest ih =>
    rw [List.cons_append, jsTrimEnd_cons, ih]
    rcases h : rest ++ [d] with _ | ⟨r, rs⟩
    · exact absurd h (by simp)
    · rfl

theorem jsTrimEnd_shape (l : List Char) :
    jsTrimEnd l = [] ∨
      ∃ init d, jsTrimEnd l = init ++ [d] ∧ jsWhitespace d = false := by
  induction l with
  | nil => exact Or.inl rfl
  | cons c rest ih =>
    rw [jsTrimEnd_cons]
    rcases ih with h | ⟨init, d, h, hd⟩
    · rw [h]
      by_cases hw : jsWhitespace c
      · simp [hw]
      · right
        refine ⟨[], c, ?_, by simpa using hw⟩
        simp [hw]
    · rw [h]
      rcases hne : init ++ [d] with _ | ⟨r, rs⟩
      · exact absurd hne (by simp)
      · right
        refine ⟨c :: init, d, ?_, hd⟩
        have hred : (match r :: rs with
            | [] => if jsWhitespace c = true then [] else [c]
            | r :: rs => c :: r :: rs) = c :: r :: rs := rfl
        rw [hred, ← hne]
        rfl

theorem jsTrimEnd_idem (s : List Char) : jsTrimEnd (jsTrimEnd s) = jsTrimEnd s := by
  rcases jsTrimEnd_shape s with h | ⟨init, d, h, hd⟩
  · rw [h]
    rfl
  · rw [h, jsTrimEnd_append_not_ws init hd]

theorem jsTrimEnd_cons_head (c : Char) (l : List Char) :
    jsTrimEnd (c :: l) = [] ∨ ∃ r, jsTrimEnd (c :: l) = c :: r := by
  rw [jsTrimEnd_cons]
  rcases jsTrimEnd l with _ | ⟨r, rs⟩
  · by_cases hw : jsWhitespace c
    · simp [hw]
    · simp [hw]
  · exact Or.inr ⟨r :: rs, rfl⟩

theorem jsTrimStart_cons_not_ws {c : Char} {l : List Char} (h : jsWhitespace c = false) :
    jsTrimStart (c :: l) = c :: l := by
  simp [jsTrimStart, List.dropWhile_cons, h]

theorem jsTrimStart_head_not_ws {s : List Char} {c : Char} {rest : List Char}
    (h : jsTrimStart s = c :: rest) : jsWhitespace c = false := by
  induction s with
  | nil => exact absurd h (by simp [jsTrimStart])
  | cons a as ih =>
    unfold jsTrimStart at h
    rw [List.dropWhile_cons] at h
    by_cases hw : jsWhitespace a
    · rw [if_pos hw] at h
      exact ih h
    · rw [if_neg hw] at h
      cases h
      simpa using hw

theorem jsTrim_idem (s : List Char) : jsTrim (jsTrim s) = jsTrim s := by
  unfold jsTrim
  rcases h : jsTrimStart s with _ | ⟨c, rest⟩
  · rfl
  · have hc : jsWhitespace c = false := jsTrimStart_head_not_ws h
    rcases jsTrimEnd_cons_head c rest with h2 | ⟨r, h2⟩
    · rw [h2]
      rfl
    · rw [h2, jsTrimStart_cons_not_ws hc, ← h2, jsTrimEnd_idem]

theorem isGarbageContent_jsTrim (s : List Char) :
    isGarbageContent (jsTrim s) = isGarbageContent s := by
  unfold isGarbageContent
  rw [jsTrim_idem]

theorem isGarbageContent_of_trim_nil {s : List Char} (h : jsTrim s = []) :
    isGarbageContent s = true := by
  unfold isGarbageContent
  rw [h]
  simp

end Hypefury

namespace Hypefury

theorem mem_warnCheck {i : QualityIssue} {hit : Bool} {iss : QualityIssue}
    {pen : Int} {st : CheckState} (h : i ∈ st.issues) :
    i ∈ (warnCheck hit iss pen st).issues := by
  unfold warnCheck
  split
  · exact List.mem_append.2 (Or.inl h)
  · exact h

theorem mem_errCheck {i : QualityIssue} {hit : Bool} {iss : QualityIssue}
    {pen : Int} {st : CheckState} (h : i ∈ st.issues) :
    i ∈ (errCheck hit iss pen st).issues := by
  unfold errCheck
  split
  · exact List.mem_append.2 (Or.inl h)
  · exact h

theorem mem_errCheck_self {iss : QualityIssue} {pen : Int} {st : CheckState}
    {hit : Bool} (h : hit = true) :
    iss ∈ (errCheck hit iss pen st).issues := by
  unfold errCheck
  rw [h, if_pos rfl]
  exact List.mem_append.2 (Or.inr (List.mem_singleton.2 rfl))

theorem warnCheck_score_le {hit : Bool} {iss : QualityIssue} {pen : Int}
    {st : CheckState} (hpen : 0 ≤ pen) : (warnCheck hit iss pen st).score ≤ st.score := by
  unfold warnCheck
  split
  · simp only
    omega
  · exact le_refl _

theorem warnCheck_le_100 {hit : Bool} {iss : QualityIssue} {pen : Int}
    {st : CheckState} (hpen : 0 ≤ pen) (h : st.score ≤ 100) :
    (warnCheck hit iss pen st).score ≤ 100 :=
  le_trans (warnCheck_score_le hpen) h

theorem errCheck_le_100 {hit : Bool} {iss : QualityIssue} {pen : Int}
    {st : CheckState} (hpen : 0 ≤ pen) (h : st.score ≤ 100) :
    (errCheck hit iss pen st).score ≤ 100 := by
  unfold errCheck
  split
  · simp only
    exact max_le (by norm_num) (by omega)
  · exact h

theorem lineScan_score_le (ls : List (List Char)) :
    ∀ (i : Nat) (st : CheckState), (lineScan i ls st).score ≤ st.score := by
  induction ls with
  | nil =>
    intro i st
    exact le_refl _
  | cons line rest ih =>
    intro i st
    unfold lineScan
    exact le_trans (ih (i + 1) _)
      (le_trans (warnCheck_score_le (by norm_num)) (warnCheck_score_le (by norm_num)))

theorem lineScan_le_100 {ls : List (List Char)} {i : Nat} {st : CheckState}
    (h : st.score ≤ 100) : (lineScan i ls st).score ≤ 100 :=
  le_trans (lineScan_score_le ls i st) h

/-- `preValidate` on empty or garbage input: score 0 and a fatal issue,
with the regex state untouched. -/
theorem preValidate_garbage (s : List Char) (σ : RegexState)
    (h : isGarbageContent s = true) :
    (preValidate s σ).1.score = 0 ∧
    (preValidate s σ).1.issues.any fatalIssue = true ∧
    (preValidate s σ).2 = σ := by
  unfold preValidate
  by_cases h0 : (jsTrim s).length = 0
  · rw [if_pos h0]
    exact ⟨rfl, by rfl, rfl⟩
  · rw [if_neg h0]
    have hg : isGarbageContent (jsTrim s) = true := by
      rw [isGarbageContent_jsTrim]
      exact h
    rw [if_pos hg]
    exact ⟨rfl, by rfl, rfl⟩

/-- The early-rejection branch of the orchestrator. -/
theorem runQualityPipeline_early (s : List Char) (σ : RegexState)
    (h : (preValidate s σ).1.issues.any fatalIssue = true) :
    runQualityPipeline s σ =
      (⟨s, s, false, (preValidate s σ).1.score, (preValidate s σ).1.issues, [],
        Stage.preValidation,
        some (String.intercalate "; "
          (((preValidate s σ).1.issues.filter fatalIssue).map (fun i => i.description)))⟩,
       (preValidate s σ).2) := by
  unfold runQualityPipeline
  rw [if_pos h]
  rfl

end Hypefury

namespace Hypefury

/-- Claim C8: garbage input (only symbols/separators, only digits, no word
characters, or only whitespace) is rejected at pre-validation with score 0
and the content passed through untouched. -/
theorem garbage_rejected_at_preValidation (s : List Char) (σ : RegexState)
    (h : isGarbageContent s = true) :
    (runQualityPipeline s σ).1.isValid = false ∧
    (runQualityPipeline s σ).1.stage = Stage.preValidation ∧
    (runQualityPipeline s σ).1.qualityScore = 0 ∧
    (runQualityPipeline s σ).1.processedContent = s := by
  obtain ⟨hscore, hfatal, -⟩ := preValidate_garbage s σ h
  rw [runQualityPipeline_early s σ hfatal]
  exact ⟨rfl, rfl, hscore, rfl⟩

/-- Witness for C8: the chunk `"- \n- \n-"` of spec scenario 2. -/
theorem garbage_rejected_at_preValidation_witness :
    (runQualityPipeline "- \n- \n-".toList RegexState.init).1.isValid = false ∧
    (runQualityPipeline "- \n- \n-".toList RegexState.init).1.stage = Stage.preValidation ∧
    (runQualityPipeline "- \n- \n-".toList RegexState.init).1.qualityScore = 0 ∧
    (runQualityPipeline "- \n- \n-".toList RegexState.init).1.processedContent =
      "- \n- \n-".toList :=
  garbage_rejected_at_preValidation "- \n- \n-".toList RegexState.init (by decide)

/-- A fatal issue in the result of `postValidate` forces `isValid = false`. -/
theorem postValidate_fatal_invalid (s : List Char) (σ : RegexState)
    (h : (postValidate s σ).1.issues.any fatalIssue = true) :
    (postValidate s σ).1.isValid = false := by
  unfold postValidate at h ⊢
  by_cases h0 : (jsTrim s).length = 0
  · rw [if_pos h0]
  · rw [if_neg h0] at h ⊢
    by_cases hg : isGarbageContent (jsTrim s) = true
    · rw [if_pos hg]
    · rw [if_neg hg] at h ⊢
      simp only at h ⊢
      rw [h]
      rfl

end Hypefury

namespace Hypefury

/-- Below the early return, the orchestrator result is the main branch. -/
theorem runQualityPipeline_eq_main (s : List Char) (σ : RegexState)
    (h : ¬ ((preValidate s σ).1.issues.any fatalIssue = true)) :
    runQualityPipeline s σ = runQualityPipelineMain s σ := by
  unfold runQualityPipeline
  rw [if_neg h]

theorem main_isValid (s : List Char) (σ : RegexState) :
    (runQualityPipelineMain s σ).1.isValid = pipelineIsValid s σ := by
  unfold runQualityPipelineMain
  with_reducible rfl

theorem main_qualityScore (s : List Char) (σ : RegexState) :
    (runQualityPipelineMain s σ).1.qualityScore = pipelineFinalScore s σ := by
  unfold runQualityPipelineMain
  with_reducible rfl

theorem main_allIssues (s : List Char) (σ : RegexState) :
    (runQualityPipelineMain s σ).1.allIssues = pipelineAllIssues s σ := by
  unfold runQualityPipelineMain
  with_reducible rfl

/-- Claim C3 (amended): a fatal issue anywhere in the result forces
`isValid = false`; the quality score is 0 for empty/garbage rejections
(other fatal issues merely subtract their penalties). -/
theorem fatal_issue_forces_invalid (s : List Char) (σ : RegexState)
    (h : (runQualityPipeline s σ).1.allIssues.any fatalIssue = true) :
    (runQualityPipeline s σ).1.isValid = false ∧
    (isGarbageContent s = true → (runQualityPipeline s σ).1.qualityScore = 0) := by
  constructor
  · by_cases hpre : (preValidate s σ).1.issues.any fatalIssue = true
    · rw [runQualityPipeline_early s σ hpre]
    · rw [runQualityPipeline_eq_main s σ hpre] at h ⊢
      rw [main_allIssues] at h
      unfold pipelineAllIssues at h
      rw [List.any_append, Bool.or_eq_true] at h
      rcases h with h1 | h2
      · exact absurd h1 hpre
      · rw [main_isValid]
        unfold pipelineIsValid
        unfold pipelinePostResult at h2 ⊢
        rw [postValidate_fatal_invalid _ _ h2, Bool.false_and]
  · intro hg
    obtain ⟨hscore, hfatal, -⟩ := preValidate_garbage s σ hg
    rw [runQualityPipeline_early s σ hfatal]
    exact hscore

/-- Witness for the amended C3 at the concrete chunk `"ab cd"`. -/
theorem fatal_issue_forces_invalid_witness :
    (runQualityPipeline shortChunk RegexState.init).1.isValid = false ∧
    (isGarbageContent shortChunk = true →
      (runQualityPipeline shortChunk RegexState.init).1.qualityScore = 0) :=
  fatal_issue_forces_invalid shortChunk RegexState.init (by decide)

end Hypefury

namespace Hypefury

theorem preValidate_score_bounds (s : List Char) (σ : RegexState) :
    0 ≤ (preValidate s σ).1.score ∧ (preValidate s σ).1.score ≤ 100 := by
  unfold preValidate
  by_cases h0 : (jsTrim s).length = 0
  · rw [if_pos h0]
    exact ⟨le_refl 0, by norm_num⟩
  · rw [if_neg h0]
    by_cases hg : isGarbageContent (jsTrim s) = true
    · rw [if_pos hg]
      exact ⟨le_refl 0, by norm_num⟩
    · rw [if_neg hg]
      constructor
      · exact le_max_left 0 _
      · refine max_le (by norm_num) ?_
        apply errCheck_le_100 (by norm_num)
        apply errCheck_le_100 (by norm_num)
        apply errCheck_le_100 (by norm_num)
        apply warnCheck_le_100 (by norm_num)
        apply warnCheck_le_100 (by norm_num)
        apply warnCheck_le_100 (by norm_num)
        apply warnCheck_le_100 (by norm_num)
        apply warnCheck_le_100 (by norm_num)
        apply warnCheck_le_100 (by norm_num)
        apply warnCheck_le_100 (by norm_num)
        apply warnCheck_le_100 (by norm_num)
        apply warnCheck_le_100 (by norm_num)
        norm_num

theorem postValidate_score_bounds (s : List Char) (σ : RegexState) :
    0 ≤ (postValidate s σ).1.score ∧ (postValidate s σ).1.score ≤ 100 := by
  unfold postValidate
  by_cases h0 : (jsTrim s).length = 0
  · rw [if_pos h0]
    exact ⟨le_refl 0, by norm_num⟩
  · rw [if_neg h0]
    by_cases hg : isGarbageContent (jsTrim s) = true
    · rw [if_pos hg]
      exact ⟨le_refl 0, by norm_num⟩
    · rw [if_neg hg]
      constructor
      · exact le_max_left 0 _
      · refine max_le (by norm_num) ?_
        apply errCheck_le_100 (by norm_num)
        apply errCheck_le_100 (by norm_num)
        apply errCheck_le_100 (by norm_num)
        apply warnCheck_le_100 (by norm_num)
        apply lineScan_le_100
        apply warnCheck_le_100 (by norm_num)
        apply warnCheck_le_100 (by norm_num)
        apply warnCheck_le_100 (by norm_num)
        norm_num

theorem fdiv10_bounds {n : Int} (h0 : 0 ≤ n) (h1 : n ≤ 1005) :
    0 ≤ n.fdiv 10 ∧ n.fdiv 10 ≤ 100 := by
  obtain ⟨k, rfl⟩ := Int.eq_ofNat_of_zero_le h0
  have hk : k ≤ 1005 := by exact_mod_cast h1
  cases k with
  | zero => decide
  | succ m =>
    have hred : ((m + 1 : Nat) : Int).fdiv 10 = (((m + 1) / 10 : Nat) : Int) := rfl
    rw [hred]
    constructor
    · exact_mod_cast Nat.zero_le _
    · exact_mod_cast (by omega : (m + 1) / 10 ≤ 100)

/-- Claim C7: all three scores — `preValidate`, `postValidate`, and the
blended pipeline `qualityScore` — lie within `[0, 100]`. -/
theorem scores_within_bounds (s : List Char) (σ : RegexState) :
    0 ≤ (preValidate s σ).1.score ∧ (preValidate s σ).1.score ≤ 100 ∧
    0 ≤ (postValidate s σ).1.score ∧ (postValidate s σ).1.score ≤ 100 ∧
    0 ≤ (runQualityPipeline s σ).1.qualityScore ∧
    (runQualityPipeline s σ).1.qualityScore ≤ 100 := by
  obtain ⟨hp0, hp1⟩ := preValidate_score_bounds s σ
  obtain ⟨hq0, hq1⟩ := postValidate_score_bounds s σ
  refine ⟨hp0, hp1, hq0, hq1, ?_⟩
  by_cases hpre : (preValidate s σ).1.issues.any fatalIssue = true
  · rw [runQualityPipeline_early s σ hpre]
    exact ⟨hp0, hp1⟩
  · rw [runQualityPipeline_eq_main s σ hpre, main_qualityScore]
    unfold pipelineFinalScore pipelinePostResult
    obtain ⟨hr0, hr1⟩ :=
      postValidate_score_bounds (pipelineFormatted s σ) (preValidate s σ).2
    exact fdiv10_bounds (by omega) (by omega)

end Hypefury

namespace Hypefury

/-- On non-garbage content with fewer than 3 ASCII letters, `preValidate`
appends the non-fixable TOO_FEW_LETTERS error. -/
theorem preValidate_fewLetters (s : List Char) (σ : RegexState)
    (hg : isGarbageContent s = false) (h : countLetters (jsTrim s) < 3) :
    (preValidate s σ).1.issues.any
      (fun i => i.code = IssueCode.TOO_FEW_LETTERS && !i.autoFixable &&
        decide (i.severity = Severity.error)) = true ∧
    (preValidate s σ).1.issues.any fatalIssue = true := by
  have h0 : ¬ ((jsTrim s).length = 0) := by
    intro h0
    rw [isGarbageContent_of_trim_nil (List.length_eq_zero.1 h0)] at hg
    cases hg
  have hg' : ¬ (isGarbageContent (jsTrim s) = true) := by
    rw [isGarbageContent_jsTrim, hg]
    exact Bool.false_ne_true
  unfold preValidate
  rw [if_neg h0, if_neg hg']
  constructor
  · apply List.any_eq_true.2
    refine ⟨⟨IssueCode.TOO_FEW_LETTERS, Severity.error,
      "Post has too few letters (" ++ toString (countLetters (jsTrim s)) ++ ", minimum 3)",
      none, false⟩, ?_, by rfl⟩
    apply mem_errCheck
    exact mem_errCheck_self (decide_eq_true h)
  · apply List.any_eq_true.2
    refine ⟨⟨IssueCode.TOO_FEW_LETTERS, Severity.error,
      "Post has too few letters (" ++ toString (countLetters (jsTrim s)) ++ ", minimum 3)",
      none, false⟩, ?_, by rfl⟩
    apply mem_errCheck
    exact mem_errCheck_self (decide_eq_true h)

/-- Claim C10 (amended): `countLetters` counts only ASCII letters, and any
chunk whose trimmed text has fewer than 3 of them is rejected by the
pipeline; the TOO_FEW_LETTERS error is appended whenever the chunk also
passes the empty/garbage gate (fully non-Latin text instead trips the
no-word-characters garbage pattern first). -/
theorem fewLetters_forces_rejection (s : List Char) (σ : RegexState)
    (h : countLetters (jsTrim s) < 3) :
    countLetters s = (s.filter asciiLetter).length ∧
    (runQualityPipeline s σ).1.isValid = false ∧
    (isGarbageContent s = false →
      (preValidate s σ).1.issues.any
        (fun i => i.code = IssueCode.TOO_FEW_LETTERS && !i.autoFixable &&
          decide (i.severity = Severity.error)) = true) := by
  refine ⟨rfl, ?_, ?_⟩
  · by_cases hgb : isGarbageContent s = true
    · exact (garbage_rejected_at_preValidation s σ hgb).1
    · have hg : isGarbageContent s = false := by
        cases hx : isGarbageContent s
        · rfl
        · exact absurd hx hgb
      obtain ⟨-, hfatal⟩ := preValidate_fewLetters s σ hg h
      rw [runQualityPipeline_early s σ hfatal]
  · intro hg
    exact (preValidate_fewLetters s σ hg h).1

/-- Witness for the amended C10: a digits-only chunk that is not garbage
(digits are word characters) and has zero ASCII letters. -/
theorem fewLetters_forces_rejection_witness :
    countLetters "12345 67890".toList = ("12345 67890".toList.filter asciiLetter).length ∧
    (runQualityPipeline "12345 67890".toList RegexState.init).1.isValid = false ∧
    (isGarbageContent "12345 67890".toList = false →
      (preValidate "12345 67890".toList RegexState.init).1.issues.any
        (fun i => i.code = IssueCode.TOO_FEW_LETTERS && !i.autoFixable &&
          decide (i.severity = Severity.error)) = true) :=
  fewLetters_forces_rejection "12345 67890".toList RegexState.init (by decide)

end Hypefury



namespace Hypefury

theorem bulletMark_not_ws {c : Char} (h : bulletMark c = true) :
    jsWhitespace c = false := by
  unfold bulletMark at h
  repeat rw [Bool.or_eq_true] at h
  rcases h with ((((((h | h) | h) | h) | h) | h) | h) | h <;>
    · rw [of_decide_eq_true h]
      decide

theorem jsDigit_not_ws {c : Char} (h : jsDigit c = true) :
    jsWhitespace c = false := by
  unfold jsDigit at h
  rw [Bool.and_eq_true] at h
  have hn1 : 0x30 ≤ c.toNat := of_decide_eq_true h.1
  have hn2 : c.toNat ≤ 0x39 := of_decide_eq_true h.2
  unfold jsWhitespace
  simp only [Bool.or_eq_false_iff, decide_eq_false_iff_not, Bool.and_eq_false_iff]
  omega

theorem jsTrim_trimStart (l : List Char) : jsTrim (jsTrimStart l) = jsTrim l := by
  unfold jsTrim
  rw [jsTrimStart_idem]

theorem jsTrimEnd_eq_nil_iff (l : List Char) :
    jsTrimEnd l = [] ↔ ∀ c ∈ l, jsWhitespace c = true := by
  induction l with
  | nil => simp [jsTrimEnd]
  | cons c rest ih =>
    rw [jsTrimEnd_cons]
    rcases h : jsTrimEnd rest with _ | ⟨r, rs⟩ <;> rw [h] at ih
    · have hrest : ∀ x ∈ rest, jsWhitespace x = true := ih.1 rfl
      by_cases hw : jsWhitespace c = true
      · rw [if_pos hw]
        constructor
        · intro _ x hx
          rcases List.mem_cons.1 hx with h1 | h1
          · rw [h1]
            exact hw
          · exact hrest x h1
        · intro _
          rfl
      · rw [if_neg hw]
        constructor
        · intro hx
          exact absurd hx (by simp)
        · intro hall
          exact absurd (hall c (List.mem_cons_self c rest)) hw
    · constructor
      · intro hx
        exact absurd hx (by simp)
      · intro hall
        exact absurd (ih.2 (fun x hx => hall x (List.mem_cons_of_mem c hx))) (by simp)

theorem jsTrimStart_eq_nil_iff (l : List Char) :
    jsTrimStart l = [] ↔ ∀ c ∈ l, jsWhitespace c = true := by
  induction l with
  | nil => simp [jsTrimStart]
  | cons c rest ih =>
    unfold jsTrimStart at ih ⊢
    rw [List.dropWhile_cons]
    by_cases hw : jsWhitespace c = true
    · rw [if_pos hw]
      constructor
      · intro hx x hxm
        rcases List.mem_cons.1 hxm with h1 | h1
        · rw [h1]
          exact hw
        · exact ih.1 hx x h1
      · intro hall
        exact ih.2 (fun x hx => hall x (List.mem_cons_of_mem c hx))
    · rw [if_neg hw]
      constructor
      · intro hx
        exact absurd hx (by simp)
      · intro hall
        exact absurd (hall c (List.mem_cons_self c rest)) hw

theorem jsTrimStart_jsTrimEnd_comm (l : List Char) :
    jsTrimStart (jsTrimEnd l) = jsTrimEnd (jsTrimStart l) := by
  induction l with
  | nil => rfl
  | cons c rest ih =>
    by_cases hw : jsWhitespace c = true
    · have hs : jsTrimStart (c :: rest) = jsTrimStart rest := by
        simp [jsTrimStart, List.dropWhile_cons, hw]
      rw [jsTrimEnd_cons, hs]
      rcases hE : jsTrimEnd rest with _ | ⟨r, rs⟩
      · rw [if_pos hw]
        have hall : ∀ x ∈ rest, jsWhitespace x = true := (jsTrimEnd_eq_nil_iff rest).1 hE
        have hsr : jsTrimStart rest = [] := (jsTrimStart_eq_nil_iff rest).2 hall
        rw [hsr]
        rfl
      · rw [hE] at ih
        have : jsTrimStart (c :: r :: rs) = jsTrimStart (r :: rs) := by
          simp [jsTrimStart, List.dropWhile_cons, hw]
        rw [this, ih]
    · have hwf : jsWhitespace c = false := by
        cases hx : jsWhitespace c
        · rfl
        · exact absurd hx hw
      rcases hE : jsTrimEnd rest with _ | ⟨r, rs⟩
      · have h1 : jsTrimEnd (c :: rest) = [c] := by
          rw [jsTrimEnd_cons, hE, if_neg hw]
        rw [h1, @jsTrimStart_cons_not_ws c [] hwf, @jsTrimStart_cons_not_ws c rest hwf, h1]
      · have h1 : jsTrimEnd (c :: rest) = c :: r :: rs := by
          rw [jsTrimEnd_cons, hE]
        rw [h1, @jsTrimStart_cons_not_ws c (r :: rs) hwf,
          @jsTrimStart_cons_not_ws c rest hwf, h1]

theorem jsTrim_trimEnd (l : List Char) : jsTrim (jsTrimEnd l) = jsTrim l := by
  unfold jsTrim
  rw [jsTrimStart_jsTrimEnd_comm, jsTrimEnd_idem]

theorem jsTrimStart_ne_nil_of_trim {l : List Char} (h : jsTrim l ≠ []) :
    jsTrimStart l ≠ [] := by
  intro hx
  apply h
  unfold jsTrim
  rw [hx]
  rfl

theorem jsTrimEnd_ne_nil_of_trim {l : List Char} (h : jsTrim l ≠ []) :
    jsTrimEnd l ≠ [] := by
  intro hx
  apply h
  unfold jsTrim
  rw [← jsTrimStart_jsTrimEnd_comm, hx]
  rfl

end Hypefury

namespace Hypefury

theorem jsTrimEnd_cons_ne_nil {c : Char} (rest : List Char)
    (h : jsWhitespace c = false) : jsTrimEnd (c :: rest) ≠ [] := by
  rw [jsTrimEnd_cons]
  rcases jsTrimEnd rest with _ | ⟨r, rs⟩
  · rw [if_neg (by rw [h]; exact Bool.false_ne_true)]
    simp
  · simp

theorem takeRun_head {p : Char → Bool} {l : List Char} (h : takeRun p l ≠ 0) :
    ∃ c rest, l = c :: rest ∧ p c = true := by
  rcases l with _ | ⟨c, rest⟩
  · exact absurd rfl h
  · refine ⟨c, rest, rfl, ?_⟩
    by_contra hc
    apply h
    unfold takeRun
    rw [List.takeWhile_cons, if_neg hc]
    rfl

theorem takeWhile_all (p : Char → Bool) (l : List Char) :
    ∀ x ∈ l.takeWhile p, p x = true := by
  induction l with
  | nil => simp
  | cons c rest ih =>
    rw [List.takeWhile_cons]
    by_cases h : p c = true
    · rw [if_pos h]
      intro x hx
      rcases List.mem_cons.1 hx with h1 | h1
      · rw [h1]
        exact h
      · exact ih x h1
    · rw [if_neg h]
      simp

theorem takeWhile_append_drop_self (p : Char → Bool) (l : List Char) :
    l.takeWhile p ++ l.drop (l.takeWhile p).length = l := by
  induction l with
  | nil => rfl
  | cons c rest ih =>
    rw [List.takeWhile_cons]
    by_cases h : p c = true
    · rw [if_pos h]
      simpa using ih
    · rw [if_neg h]
      rfl

theorem takeRun_append_exact {p : Char → Bool} {A : List Char} {b : Char}
    (hA : ∀ x ∈ A, p x = true) (hb : p b = false) (B : List Char) :
    takeRun p (A ++ b :: B) = A.length := by
  induction A with
  | nil =>
    unfold takeRun
    rw [List.nil_append, List.takeWhile_cons, if_neg (by rw [hb]; exact Bool.false_ne_true)]
  | cons c A' ih =>
    unfold takeRun at ih ⊢
    rw [List.cons_append, List.takeWhile_cons,
      if_pos (hA c (List.mem_cons_self c A'))]
    simp only [List.length_cons]
    rw [ih (fun x hx => hA x (List.mem_cons_of_mem c hx))]

theorem jsTrimEnd_append (a b : List Char) :
    jsTrimEnd (a ++ b) =
      if jsTrimEnd b = [] then jsTrimEnd a else a ++ jsTrimEnd b := by
  induction a with
  | nil =>
    by_cases hB : jsTrimEnd b = []
    · rw [List.nil_append, if_pos hB, hB]
      rfl
    · rw [List.nil_append, if_neg hB, List.nil_append]
  | cons c a' ih =>
    by_cases hB : jsTrimEnd b = []
    · rw [List.cons_append, jsTrimEnd_cons, ih, if_pos hB, if_pos hB, ← jsTrimEnd_cons]
    · rw [List.cons_append, jsTrimEnd_cons, ih, if_neg hB, if_neg hB]
      rcases hx : a' ++ jsTrimEnd b with _ | ⟨u, us⟩
      · exact absurd ((List.append_eq_nil.1 hx).2) hB
      · rw [List.cons_append, hx]

theorem jsTrimEnd_decomp (l : List Char) :
    ∃ w, l = jsTrimEnd l ++ w ∧ ∀ x ∈ w, jsWhitespace x = true := by
  induction l with
  | nil => exact ⟨[], rfl, by simp⟩
  | cons c rest ih =>
    rw [jsTrimEnd_cons]
    rcases h : jsTrimEnd rest with _ | ⟨r, rs⟩
    · have hall : ∀ x ∈ rest, jsWhitespace x = true := (jsTrimEnd_eq_nil_iff rest).1 h
      by_cases hw : jsWhitespace c = true
      · rw [if_pos hw]
        refine ⟨c :: rest, rfl, ?_⟩
        intro x hx
        rcases List.mem_cons.1 hx with h1 | h1
        · rw [h1]
          exact hw
        · exact hall x h1
      · rw [if_neg hw]
        exact ⟨rest, rfl, hall⟩
    · obtain ⟨w, hw1, hw2⟩ := ih
      rw [h] at hw1
      exact ⟨w, by rw [List.cons_append, ← hw1], hw2⟩

end Hypefury

namespace Hypefury

/-- A bare list marker: a lone bullet glyph, or digits followed directly
by `.` or `)` — what remains of a stray list item after its trailing
whitespace is trimmed away. -/
def bareMarker (l : List Char) : Bool :=
  (match l with
   | [c] => bulletMark c
   | _ => false) ||
  (let d := takeRun jsDigit l
   decide (d ≠ 0) &&
     match l.drop d with
     | [c] => c = '.' || c = ')'
     | _ => false)

theorem isListItem_trimStart (l : List Char) :
    isListItem (jsTrimStart l) = isListItem l := by
  unfold isListItem
  rw [jsTrimStart_idem]

theorem isListItem_intro_bullet {l : List Char} {c d : Char} {t2 : List Char}
    (h : jsTrimStart l = c :: d :: t2) (hb : bulletMark c = true)
    (hw : jsWhitespace d = true) : isListItem l = true := by
  unfold isListItem
  rw [h]
  simp [hb, hw]

theorem isListItem_intro_num {l : List Char} {A : List Char} {sep d : Char}
    {t2 : List Char} (h : jsTrimStart l = A ++ sep :: d :: t2) (hA : A ≠ [])
    (hall : ∀ x ∈ A, jsDigit x = true) (hsep : sep = '.' ∨ sep = ')')
    (hw : jsWhitespace d = true) : isListItem l = true := by
  have hsd : jsDigit sep = false := by
    rcases hsep with h1 | h1 <;> rw [h1] <;> decide
  have hrun2 : takeRun jsDigit (A ++ sep :: d :: t2) = A.length :=
    takeRun_append_exact hall hsd (d :: t2)
  have hdrop2 : (A ++ sep :: d :: t2).drop A.length = sep :: d :: t2 :=
    List.drop_left A (sep :: d :: t2)
  have hlen : decide (A.length ≠ 0) = true := by
    rcases A with _ | ⟨a, as⟩
    · exact absurd rfl hA
    · simp
  have hsep2 : (decide (sep = '.') || decide (sep = ')')) = true := by
    rcases hsep with h1 | h1 <;> rw [h1] <;> decide
  unfold isListItem
  rw [h]
  simp [hrun2, hdrop2, hlen, hsep2, hw]
  exact Or.inr hA

theorem isListItem_cases {l : List Char} (h : isListItem l = true) :
    (∃ c d t2, jsTrimStart l = c :: d :: t2 ∧ bulletMark c = true ∧
      jsWhitespace d = true) ∨
    (∃ A sep d t2, jsTrimStart l = A ++ sep :: d :: t2 ∧ A ≠ [] ∧
      (∀ x ∈ A, jsDigit x = true) ∧ (sep = '.' ∨ sep = ')') ∧
      jsWhitespace d = true) := by
  unfold isListItem at h
  rw [Bool.or_eq_true] at h
  rcases h with h | h
  · left
    rcases ht : jsTrimStart l with _ | ⟨c, rest⟩
    · simp [ht] at h
    · rcases rest with _ | ⟨d, t2⟩
      · simp [ht] at h
      · simp only [ht] at h
        rw [Bool.and_eq_true] at h
        exact ⟨c, d, t2, rfl, h.1, h.2⟩
  · right
    rw [Bool.and_eq_true] at h
    have hne : takeRun jsDigit (jsTrimStart l) ≠ 0 := of_decide_eq_true h.1
    have hd := h.2
    have hsplit : (jsTrimStart l).takeWhile jsDigit ++
        (jsTrimStart l).drop ((jsTrimStart l).takeWhile jsDigit).length = jsTrimStart l :=
      takeWhile_append_drop_self jsDigit (jsTrimStart l)
    have hallA : ∀ x ∈ (jsTrimStart l).takeWhile jsDigit, jsDigit x = true :=
      takeWhile_all jsDigit (jsTrimStart l)
    have hAne : (jsTrimStart l).takeWhile jsDigit ≠ [] := by
      intro hx
      apply hne
      unfold takeRun
      rw [hx]
      rfl
    rcases hdr : (jsTrimStart l).drop (takeRun jsDigit (jsTrimStart l)) with
      _ | ⟨sep, rest2⟩
    · simp [hdr] at hd
    · rcases rest2 with _ | ⟨d2, t2⟩
      · simp [hdr] at hd
      · simp only [hdr] at hd
        rw [Bool.and_eq_true] at hd
        refine ⟨(jsTrimStart l).takeWhile jsDigit, sep, d2, t2, ?_, hAne, hallA, ?_, hd.2⟩
        · have heq : takeRun jsDigit (jsTrimStart l) =
              ((jsTrimStart l).takeWhile jsDigit).length := rfl
          rw [heq] at hdr
          conv_lhs => rw [← hsplit]
          rw [hdr]
        · rw [Bool.or_eq_true] at hd
          rcases hd.1 with h1 | h1
          · exact Or.inl (of_decide_eq_true h1)
          · exact Or.inr (of_decide_eq_true h1)

end Hypefury

namespace Hypefury

theorem splitLines_ne_nil (s : List Char) : splitLines s ≠ [] := by
  induction s with
  | nil => simp [splitLines]
  | cons c rest ih =>
    unfold splitLines
    by_cases h : c = '\n'
    · simp [h]
    · rw [if_neg h]
      rcases splitLines rest with _ | ⟨l, ls⟩ <;> simp

theorem splitLines_no_newline (s : List Char) :
    ∀ l ∈ splitLines s, '\n' ∉ l := by
  induction s with
  | nil => simp [splitLines]
  | cons c rest ih =>
    unfold splitLines
    by_cases h : c = '\n'
    · rw [if_pos h]
      intro l hl
      rcases List.mem_cons.1 hl with h1 | h1
      · rw [h1]; simp
      · exact ih l h1
    · rw [if_neg h]
      rcases hs : splitLines rest with _ | ⟨l0, ls⟩
      · exact absurd hs (splitLines_ne_nil rest)
      · intro l hl
        rcases List.mem_cons.1 hl with h1 | h1
        · rw [h1]
          intro hm
          rcases List.mem_cons.1 hm with h2 | h2
          · exact h h2.symm
          · exact ih l0 (hs ▸ List.mem_cons_self l0 ls) h2
        · exact ih l (hs ▸ List.mem_cons_of_mem l0 h1)

theorem splitLines_noNL (a : List Char) (ha : '\n' ∉ a) : splitLines a = [a] := by
  induction a with
  | nil => rfl
  | cons c rest ih =>
    unfold splitLines
    rw [if_neg (by intro h; exact ha (h ▸ List.mem_cons_self c rest))]
    rw [ih (fun h => ha (List.mem_cons_of_mem c h))]

theorem splitLines_cons_eq (c : Char) (rest : List Char) :
    splitLines (c :: rest) =
      if c = '\n' then [] :: splitLines rest
      else match splitLines rest with
        | [] => [[c]]
        | h :: t => (c :: h) :: t := rfl

theorem splitLines_append_newline (a s : List Char) (ha : '\n' ∉ a) :
    splitLines (a ++ '\n' :: s) = a :: splitLines s := by
  induction a with
  | nil =>
    rw [List.nil_append, splitLines_cons_eq, if_pos rfl]
  | cons c rest ih =>
    rw [List.cons_append, splitLines_cons_eq,
      if_neg (by intro h; exact ha (h ▸ List.mem_cons_self c rest)),
      ih (fun h => ha (List.mem_cons_of_mem c h))]

theorem joinLines_cons (l : List Char) (r : List Char) (rs : List (List Char)) :
    joinLines (l :: r :: rs) = l ++ '\n' :: joinLines (r :: rs) := rfl

theorem split_join : ∀ (R : List (List Char)), R ≠ [] →
    (∀ l ∈ R, '\n' ∉ l) → splitLines (joinLines R) = R := by
  intro R
  induction R with
  | nil => intro h; exact absurd rfl h
  | cons l rest ih =>
    intro _ hnl
    rcases rest with _ | ⟨r, rs⟩
    · exact splitLines_noNL l (hnl l (List.mem_cons_self l []))
    · rw [joinLines_cons,
        splitLines_append_newline l _ (hnl l (List.mem_cons_self l (r :: rs))),
        ih (by simp) (fun x hx => hnl x (List.mem_cons_of_mem l hx))]

theorem jsTrimStart_append_of_ne {a : List Char} (b : List Char)
    (h : jsTrimStart a ≠ []) : jsTrimStart (a ++ b) = jsTrimStart a ++ b := by
  induction a with
  | nil => exact absurd rfl h
  | cons c rest ih =>
    unfold jsTrimStart at h ⊢
    rw [List.cons_append, List.dropWhile_cons, List.dropWhile_cons]
    by_cases hw : jsWhitespace c = true
    · simp only [if_pos hw]
      rw [List.dropWhile_cons, if_pos hw] at h
      exact ih h
    · simp only [if_neg hw]
      rw [List.cons_append]

theorem item_not_blank {l : List Char} (h : isListItem l = true) :
    jsTrim l ≠ [] := by
  rcases isListItem_cases h with ⟨c, d, t2, heq, hb, hw⟩ | ⟨A, sep, d, t2, heq, hA, hall, hsep, hw⟩
  · unfold jsTrim
    rw [heq]
    exact jsTrimEnd_cons_ne_nil _ (bulletMark_not_ws hb)
  · unfold jsTrim
    rw [heq]
    rcases A with _ | ⟨a0, A'⟩
    · exact absurd rfl hA
    · rw [List.cons_append]
      exact jsTrimEnd_cons_ne_nil _
        (jsDigit_not_ws (hall a0 (List.mem_cons_self a0 A')))

theorem blank_not_item {l : List Char} (h : jsTrim l = []) :
    isListItem l = false := by
  by_contra hc
  exact item_not_blank (Bool.of_not_eq_false hc) h

end Hypefury

namespace Hypefury

theorem isListItem_append_ws {a : List Char} {w : List Char}
    (_hw : ∀ x ∈ w, jsWhitespace x = true) (h : isListItem a = true) :
    isListItem (a ++ w) = true := by
  rcases isListItem_cases h with
    ⟨c, d, t2, heq, hb, hwd⟩ | ⟨A, sep, d, t2, heq, hA, hall, hsep, hwd⟩
  · have hne : jsTrimStart a ≠ [] := by rw [heq]; simp
    have h2 : jsTrimStart (a ++ w) = c :: d :: (t2 ++ w) := by
      rw [jsTrimStart_append_of_ne w hne, heq]
      simp
    exact isListItem_intro_bullet h2 hb hwd
  · have hne : jsTrimStart a ≠ [] := by rw [heq]; simp
    have h2 : jsTrimStart (a ++ w) = A ++ sep :: d :: (t2 ++ w) := by
      rw [jsTrimStart_append_of_ne w hne, heq]
      simp
    exact isListItem_intro_num h2 hA hall hsep hwd

theorem isListItem_of_trimEnd {e : List Char}
    (h : isListItem (jsTrimEnd e) = true) : isListItem e = true := by
  obtain ⟨w, hw1, hw2⟩ := jsTrimEnd_decomp e
  rw [hw1]
  exact isListItem_append_ws hw2 h

theorem flush_trimEnd {e : List Char} (hflush : jsTrimStart e = e)
    (hne : e ≠ []) : jsTrimStart (jsTrimEnd e) = jsTrimEnd e := by
  rcases e with _ | ⟨c, rest⟩
  · exact absurd rfl hne
  · have hcw : jsWhitespace c = false := jsTrimStart_head_not_ws hflush
    rcases jsTrimEnd_cons_head c rest with h | ⟨r, h⟩
    · rw [h]
      rfl
    · rw [h]
      exact jsTrimStart_cons_not_ws hcw

theorem isListItem_trimEnd {e : List Char} (hI : isListItem e = true)
    (hflush : jsTrimStart e = e) (hbare : bareMarker (jsTrimEnd e) = false) :
    isListItem (jsTrimEnd e) = true := by
  rcases isListItem_cases hI with
    ⟨c, d, t2, heq, hb, hwd⟩ | ⟨A, sep, d, t2, heq, hA, hall, hsep, hwd⟩
  · rw [hflush] at heq
    subst heq
    have hcw : jsWhitespace c = false := bulletMark_not_ws hb
    rcases h3 : jsTrimEnd t2 with _ | ⟨u, us⟩
    · have h4 : jsTrimEnd (d :: t2) = [] := by
        rw [jsTrimEnd_cons]
        simp only [h3]
        rw [if_pos hwd]
      have hTE : jsTrimEnd (c :: d :: t2) = [c] := by
        rw [jsTrimEnd_cons]
        simp only [h4]
        rw [if_neg (by rw [hcw]; exact Bool.false_ne_true)]
      rw [hTE] at hbare
      have hbm : bareMarker [c] = true := by
        unfold bareMarker
        simp [hb]
      rw [hbm] at hbare
      simp at hbare
    · have h4 : jsTrimEnd (d :: t2) = d :: u :: us := by
        rw [jsTrimEnd_cons]
        simp only [h3]
      have hTE : jsTrimEnd (c :: d :: t2) = c :: d :: u :: us := by
        rw [jsTrimEnd_cons]
        simp only [h4]
      rw [hTE]
      exact isListItem_intro_bullet (jsTrimStart_cons_not_ws hcw) hb hwd
  · rw [hflush] at heq
    subst heq
    have hsw : jsWhitespace sep = false := by
      rcases hsep with h1 | h1 <;> rw [h1] <;> decide
    have hsd : jsDigit sep = false := by
      rcases hsep with h1 | h1 <;> rw [h1] <;> decide
    rcases h3 : jsTrimEnd t2 with _ | ⟨u, us⟩
    · have h4 : jsTrimEnd (d :: t2) = [] := by
        rw [jsTrimEnd_cons]
        simp only [h3]
        rw [if_pos hwd]
      have h5 : jsTrimEnd (sep :: d :: t2) = [sep] := by
        rw [jsTrimEnd_cons]
        simp only [h4]
        rw [if_neg (by rw [hsw]; exact Bool.false_ne_true)]
      have h6 : jsTrimEnd (A ++ sep :: d :: t2) = A ++ [sep] := by
        rw [jsTrimEnd_append, if_neg (by rw [h5]; simp), h5]
      have hrun : takeRun jsDigit (A ++ [sep]) = A.length :=
        takeRun_append_exact hall hsd []
      have hlen : decide (A.length ≠ 0) = true := by
        rcases A with _ | ⟨a, as⟩
        · exact absurd rfl hA
        · simp
      have hbm : bareMarker (A ++ [sep]) = true := by
        unfold bareMarker
        simp only [hrun, List.drop_left]
        rcases hsep with h1 | h1 <;> rw [h1] <;> simp [hlen] <;>
          exact Or.inr hA
      rw [h6, hbm] at hbare
      simp at hbare
    · have h4 : jsTrimEnd (d :: t2) = d :: u :: us := by
        rw [jsTrimEnd_cons]
        simp only [h3]
      have h5 : jsTrimEnd (sep :: d :: t2) = sep :: d :: u :: us := by
        rw [jsTrimEnd_cons]
        simp only [h4]
      have h6 : jsTrimEnd (A ++ sep :: d :: t2) = A ++ sep :: d :: u :: us := by
        rw [jsTrimEnd_append, if_neg (by rw [h5]; simp), h5]
      rw [h6]
      have hfl : jsTrimStart (A ++ sep :: d :: u :: us) = A ++ sep :: d :: u :: us := by
        rcases A with _ | ⟨a0, A2⟩
        · exact absurd rfl hA
        · rw [List.cons_append]
          exact jsTrimStart_cons_not_ws
            (jsDigit_not_ws (hall a0 (List.mem_cons_self a0 A2)))
      exact isListItem_intro_num hfl hA hall hsep hwd

end Hypefury

namespace Hypefury

theorem fmtGo_cons_eq (inL lB lT ne : Bool) (line : List Char)
    (rest : List (List Char)) :
    fmtGo inL lB lT ne (line :: rest) =
      (let isItem := isListItem line
       let l := if isItem then jsTrimStart line else line
       if (jsTrim l).isEmpty then
         if !lB && ne then [] :: fmtGo inL true lT ne rest
         else fmtGo inL lB lT ne rest
       else if isItem then
         (if !inL && ne && !lB then [[]] else []) ++
           l :: fmtGo true false false true rest
       else
         (if inL && !lB then [[]]
          else if lT && !lB then [[]]
          else []) ++
           l :: fmtGo false false true true rest) := rfl

theorem fmtGo_blank_push {line : List Char} (hb : jsTrim line = [])
    (inL lT : Bool) (rest : List (List Char)) :
    fmtGo inL false lT true (line :: rest) =
      [] :: fmtGo inL true lT true rest := by
  have hI : isListItem line = false := blank_not_item hb
  rw [fmtGo_cons_eq]
  simp [hI, hb]

theorem fmtGo_blank_skip {line : List Char} (hb : jsTrim line = [])
    {inL lB lT ne : Bool} (h : lB = true ∨ ne = false)
    (rest : List (List Char)) :
    fmtGo inL lB lT ne (line :: rest) = fmtGo inL lB lT ne rest := by
  have hI : isListItem line = false := blank_not_item hb
  rw [fmtGo_cons_eq]
  rcases h with h | h <;> subst h <;> simp [hI, hb]

theorem fmtGo_item_eq {line : List Char} (hI : isListItem line = true)
    (inL lB lT ne : Bool) (rest : List (List Char)) :
    fmtGo inL lB lT ne (line :: rest) =
      (if !inL && ne && !lB then [[]] else []) ++
        jsTrimStart line :: fmtGo true false false true rest := by
  have hne : jsTrim (jsTrimStart line) ≠ [] := by
    rw [jsTrim_trimStart]
    exact item_not_blank hI
  have hE : (jsTrim (jsTrimStart line)).isEmpty = false := by
    rcases hx : jsTrim (jsTrimStart line) with _ | ⟨a, b⟩
    · exact absurd hx hne
    · rfl
  rw [fmtGo_cons_eq]
  simp [hI, hE]

theorem fmtGo_text_eq {line : List Char} (hI : isListItem line = false)
    (hb : jsTrim line ≠ []) (inL lB lT ne : Bool)
    (rest : List (List Char)) :
    fmtGo inL lB lT ne (line :: rest) =
      (if inL && !lB then [[]]
       else if lT && !lB then [[]]
       else []) ++
        line :: fmtGo false false true true rest := by
  have hE : (jsTrim line).isEmpty = false := by
    rcases hx : jsTrim line with _ | ⟨a, b⟩
    · exact absurd hx hb
    · rfl
  rw [fmtGo_cons_eq]
  simp [hI, hE]

end Hypefury

namespace Hypefury

/-- The lists of lines on which the `formatPost` line loop acts as the
identity, starting from the given `inList` / `lastWasBlank` /
`lastWasText` / `result.length > 0` state.  Each constructor mirrors one
non-inserting branch of the loop. -/
inductive Fix : Bool → Bool → Bool → Bool → List (List Char) → Prop
  | nil (inL lB lT ne : Bool) : Fix inL lB lT ne []
  | blank (inL lT : Bool) (rest : List (List Char)) :
      Fix inL true lT true rest → Fix inL false lT true ([] :: rest)
  | item (inL lB lT ne : Bool) (e : List Char) (rest : List (List Char)) :
      isListItem e = true → jsTrimStart e = e →
      (inL = true ∨ ne = false ∨ lB = true) →
      Fix true false false true rest → Fix inL lB lT ne (e :: rest)
  | text (inL lB lT ne : Bool) (e : List Char) (rest : List (List Char)) :
      isListItem e = false → jsTrim e ≠ [] →
      (lB = true ∨ (inL = false ∧ lT = false)) →
      Fix false false true true rest → Fix inL lB lT ne (e :: rest)

theorem fmtGo_of_fix {inL lB lT ne : Bool} {lines : List (List Char)}
    (h : Fix inL lB lT ne lines) : fmtGo inL lB lT ne lines = lines := by
  induction h with
  | nil inL lB lT ne => rfl
  | blank inL lT rest hrest ih =>
    rw [fmtGo_blank_push (show jsTrim [] = [] from rfl), ih]
  | item inL lB lT ne e rest hitem hflush hcond hrest ih =>
    rw [fmtGo_item_eq hitem, hflush, ih]
    rcases hcond with h1 | h1 | h1 <;> subst h1 <;> simp
  | text inL lB lT ne e rest hitem hnb hcond hrest ih =>
    rw [fmtGo_text_eq hitem hnb, ih]
    rcases hcond with h1 | ⟨h1, h2⟩
    · subst h1
      simp
    · subst h1
      subst h2
      simp

theorem fmtGo_fix : ∀ (lines : List (List Char)) (inL lB lT ne : Bool),
    (inL = true ∨ lT = true → ne = true) →
    Fix inL lB lT ne (fmtGo inL lB lT ne lines) := by
  intro lines
  induction lines with
  | nil =>
    intro inL lB lT ne hok
    exact Fix.nil inL lB lT ne
  | cons line rest ih =>
    intro inL lB lT ne hok
    by_cases hb : jsTrim line = []
    · by_cases hskip : lB = true ∨ ne = false
      · rw [fmtGo_blank_skip hb hskip rest]
        exact ih inL lB lT ne hok
      · push_neg at hskip
        obtain ⟨hlB, hne⟩ := hskip
        have hlB' : lB = false := by
          rcases lB with _ | _
          · rfl
          · exact absurd rfl hlB
        have hne' : ne = true := by
          rcases ne with _ | _
          · exact absurd rfl hne
          · rfl
        subst hlB'
        subst hne'
        rw [fmtGo_blank_push hb]
        exact Fix.blank inL lT _ (ih inL true lT true (fun _ => rfl))
    · by_cases hI : isListItem line = true
      · rw [fmtGo_item_eq hI]
        have hIl : isListItem (jsTrimStart line) = true := by
          rw [isListItem_trimStart]
          exact hI
        have hfl : jsTrimStart (jsTrimStart line) = jsTrimStart line :=
          jsTrimStart_idem line
        by_cases hg : (!inL && ne && !lB) = true
        · have hinL : inL = false := by
            rcases inL with _ | _
            · rfl
            · simp at hg
          have hne' : ne = true := by
            rcases ne with _ | _
            · rw [hinL] at hg; simp at hg
            · rfl
          have hlB' : lB = false := by
            rcases lB with _ | _
            · rfl
            · simp at hg
          subst hinL
          subst hne'
          subst hlB'
          rw [if_pos hg]
          exact Fix.blank false lT _
            (Fix.item false true lT true _ _ hIl hfl (Or.inr (Or.inr rfl))
              (ih true false false true (fun _ => rfl)))
        · rw [if_neg (by rw [Bool.not_eq_true] at hg; rw [hg]; exact Bool.false_ne_true),
            List.nil_append]
          have hcond : inL = true ∨ ne = false ∨ lB = true := by
            rcases inL with _ | _ <;> rcases ne with _ | _ <;> rcases lB with _ | _ <;>
              simp_all
          exact Fix.item inL lB lT ne _ _ hIl hfl hcond
            (ih true false false true (fun _ => rfl))
      · have hI' : isListItem line = false := by
          rcases hx : isListItem line with _ | _
          · rfl
          · exact absurd hx hI
        rw [fmtGo_text_eq hI' hb]
        by_cases hg1 : (inL && !lB) = true
        · have hinL : inL = true := by
            rcases inL with _ | _
            · simp at hg1
            · rfl
          have hlB' : lB = false := by
            rcases lB with _ | _
            · rfl
            · simp at hg1
          have hne' : ne = true := hok (Or.inl hinL)
          subst hinL
          subst hlB'
          subst hne'
          rw [if_pos hg1]
          exact Fix.blank true lT _
            (Fix.text true true lT true _ _ hI' hb (Or.inl rfl)
              (ih false false true true (fun _ => rfl)))
        · rw [if_neg (by rw [Bool.not_eq_true] at hg1; rw [hg1]; exact Bool.false_ne_true)]
          by_cases hg2 : (lT && !lB) = true
          · have hlT : lT = true := by
              rcases lT with _ | _
              · simp at hg2
              · rfl
            have hlB' : lB = false := by
              rcases lB with _ | _
              · rfl
              · simp at hg2
            have hne' : ne = true := hok (Or.inr hlT)
            subst hlT
            subst hlB'
            subst hne'
            rw [if_pos hg2]
            have hinL : inL = false := by
              rcases inL with _ | _
              · rfl
              · simp at hg1
            subst hinL
            exact Fix.blank false true _
              (Fix.text false true true true _ _ hI' hb (Or.inl rfl)
                (ih false false true true (fun _ => rfl)))
          · rw [if_neg (by rw [Bool.not_eq_true] at hg2; rw [hg2]; exact Bool.false_ne_true),
              List.nil_append]
            have hcond : lB = true ∨ (inL = false ∧ lT = false) := by
              rcases inL with _ | _ <;> rcases lT with _ | _ <;> rcases lB with _ | _ <;>
                simp_all
            exact Fix.text inL lB lT ne _ _ hI' hb hcond
              (ih false false true true (fun _ => rfl))

end Hypefury

namespace Hypefury

/-- The last element of a list of lines (`[]` for the empty list). -/
def getLastLine : List (List Char) → List Char
  | [] => []
  | [l] => l
  | _ :: rest => getLastLine rest

/-- `trimStart` applied to the first line only (the left half of the final
`trim` of `formatPost`, pushed through the join). -/
def adjustFirst : List (List Char) → List (List Char)
  | [] => []
  | l :: rest => jsTrimStart l :: rest

/-- Removal of a single trailing blank line (what the right half of the
final `trim` does to a join ending in `...\n`). -/
def dropTrailingBlank : List (List Char) → List (List Char)
  | [] => []
  | [l] => if l = [] then [] else [l]
  | l :: rest => l :: dropTrailingBlank rest

/-- `trimEnd` applied to the last line only. -/
def adjustLast : List (List Char) → List (List Char)
  | [] => []
  | [l] => [jsTrimEnd l]
  | l :: rest => l :: adjustLast rest

/-- The effect of the final `trim` of `formatPost` on the line list. -/
def trimEdges (R : List (List Char)) : List (List Char) :=
  adjustLast (dropTrailingBlank (adjustFirst R))

/-- The last line of a string, in the sense of `split('\n')`. -/
def lastLine (s : List Char) : List Char := getLastLine (splitLines s)

theorem getLastLine_cons₂ (x r : List Char) (rs : List (List Char)) :
    getLastLine (x :: r :: rs) = getLastLine (r :: rs) := rfl

theorem dropTrailingBlank_cons₂ (l r : List Char) (rs : List (List Char)) :
    dropTrailingBlank (l :: r :: rs) = l :: dropTrailingBlank (r :: rs) := rfl

theorem adjustLast_cons₂ (l r : List Char) (rs : List (List Char)) :
    adjustLast (l :: r :: rs) = l :: adjustLast (r :: rs) := rfl

theorem adjustLast_ne_nil {S : List (List Char)} (h : S ≠ []) :
    adjustLast S ≠ [] := by
  rcases S with _ | ⟨l, rest⟩
  · exact absurd rfl h
  · rcases rest with _ | ⟨r, rs⟩ <;> simp [adjustLast]

theorem getLastLine_adjustLast : ∀ (S : List (List Char)), S ≠ [] →
    getLastLine (adjustLast S) = jsTrimEnd (getLastLine S) := by
  intro S
  induction S with
  | nil => intro h; exact absurd rfl h
  | cons l rest ih =>
    intro _
    rcases rest with _ | ⟨r, rs⟩
    · rfl
    · rw [adjustLast_cons₂, getLastLine_cons₂]
      rcases hx : adjustLast (r :: rs) with _ | ⟨e, es⟩
      · exact absurd hx (adjustLast_ne_nil (by simp))
      · rw [getLastLine_cons₂, ← hx, ih (by simp)]

theorem joinLines_cons_ne_nil (a r : List Char) (rs : List (List Char)) :
    joinLines (a :: r :: rs) ≠ [] := by
  rw [joinLines_cons]
  simp

theorem jsTrimStart_join {l0 : List Char} (rest : List (List Char))
    (h : jsTrimStart l0 ≠ []) :
    jsTrimStart (joinLines (l0 :: rest)) = joinLines (jsTrimStart l0 :: rest) := by
  rcases rest with _ | ⟨r, rs⟩
  · rfl
  · rw [joinLines_cons, joinLines_cons, jsTrimStart_append_of_ne _ h]

theorem jsTrimEnd_cons_congr {x y : List Char} (c : Char)
    (h : jsTrimEnd x = jsTrimEnd y) : jsTrimEnd (c :: x) = jsTrimEnd (c :: y) := by
  rw [jsTrimEnd_cons, jsTrimEnd_cons, h]

theorem jsTrimEnd_append_congr {x y : List Char} (a : List Char)
    (h : jsTrimEnd x = jsTrimEnd y) : jsTrimEnd (a ++ x) = jsTrimEnd (a ++ y) := by
  rw [jsTrimEnd_append, jsTrimEnd_append, h]

theorem jsTrimEnd_join_dropBlank : ∀ (S : List (List Char)),
    jsTrimEnd (joinLines (dropTrailingBlank S)) = jsTrimEnd (joinLines S) := by
  intro S
  induction S with
  | nil => rfl
  | cons l rest ih =>
    rcases rest with _ | ⟨r, rs⟩
    · by_cases hl : l = []
      · subst hl
        rfl
      · have : dropTrailingBlank [l] = [l] := by
          unfold dropTrailingBlank
          rw [if_neg hl]
        rw [this]
    · rw [dropTrailingBlank_cons₂]
      rcases hT : dropTrailingBlank (r :: rs) with _ | ⟨d, ds⟩
      · rw [hT] at ih
        rw [joinLines_cons]
        have h1 : jsTrimEnd ('\n' :: joinLines (r :: rs)) = [] := by
          rw [jsTrimEnd_cons, ← ih]
          rfl
        rw [jsTrimEnd_append, if_pos h1]
        rfl
      · rw [hT] at ih
        rw [joinLines_cons, joinLines_cons]
        exact jsTrimEnd_append_congr l (jsTrimEnd_cons_congr '\n' ih)

theorem jsTrimEnd_join : ∀ (S : List (List Char)), S ≠ [] →
    jsTrimEnd (getLastLine S) ≠ [] →
    jsTrimEnd (joinLines S) = joinLines (adjustLast S) := by
  intro S
  induction S with
  | nil => intro h; exact absurd rfl h
  | cons l rest ih =>
    intro _ hlast
    rcases rest with _ | ⟨r, rs⟩
    · rfl
    · rw [getLastLine_cons₂] at hlast
      have ihx := ih (by simp) hlast
      have hJne : joinLines (adjustLast (r :: rs)) ≠ [] := by
        rcases rs with _ | ⟨s, ss⟩
        · exact hlast
        · rw [adjustLast_cons₂]
          rcases hy : adjustLast (s :: ss) with _ | ⟨u, us⟩
          · exact absurd hy (adjustLast_ne_nil (by simp))
          · exact joinLines_cons_ne_nil r u us
      rcases hJ : joinLines (adjustLast (r :: rs)) with _ | ⟨d, ds⟩
      · exact absurd hJ hJne
      · have h1 : jsTrimEnd ('\n' :: joinLines (r :: rs)) = '\n' :: d :: ds := by
          rw [jsTrimEnd_cons]
          rw [ihx, hJ]
        rw [joinLines_cons, jsTrimEnd_append,
          if_neg (by rw [h1]; simp), h1, adjustLast_cons₂]
        rcases hL : adjustLast (r :: rs) with _ | ⟨e, es⟩
        · exact absurd hL (adjustLast_ne_nil (by simp))
        · rw [joinLines_cons, ← hL, hJ]

end Hypefury

namespace Hypefury

theorem fix_blank_head_false {inL lT ne : Bool} {rest : List (List Char)}
    (h : Fix inL true lT ne ([] :: rest)) : False := by
  have h1 : isListItem ([] : List Char) = false := by decide
  have h2 : jsTrim ([] : List Char) = [] := rfl
  cases h <;> simp_all

theorem fix_adjustFirst {inL lB lT ne : Bool} {S : List (List Char)}
    (h : Fix inL lB lT ne S) : Fix inL lB lT ne (adjustFirst S) := by
  cases h with
  | nil => exact Fix.nil inL lB lT ne
  | blank inL lT rest hrest => exact Fix.blank inL lT rest hrest
  | item inL lB lT ne e rest hi hf hc hrest =>
    show Fix inL lB lT ne (jsTrimStart e :: rest)
    rw [hf]
    exact Fix.item inL lB lT ne e rest hi hf hc hrest
  | text inL lB lT ne e rest hi hnb hc hrest =>
    show Fix inL lB lT ne (jsTrimStart e :: rest)
    exact Fix.text inL lB lT ne (jsTrimStart e) rest
      (by rw [isListItem_trimStart]; exact hi)
      (by rw [jsTrim_trimStart]; exact hnb) hc hrest

theorem fix_dropTrailingBlank {inL lB lT ne : Bool} {S : List (List Char)}
    (h : Fix inL lB lT ne S) : Fix inL lB lT ne (dropTrailingBlank S) := by
  induction h with
  | nil => exact Fix.nil ..
  | blank inL lT rest hrest ih =>
    rcases rest with _ | ⟨r, rs⟩
    · exact Fix.nil ..
    · rw [dropTrailingBlank_cons₂]
      exact Fix.blank _ _ _ ih
  | item inL lB lT ne e rest hi hf hc hrest ih =>
    have hnbk : jsTrim e ≠ [] := item_not_blank hi
    have hene : e ≠ [] := fun hx => hnbk (by rw [hx]; rfl)
    rcases rest with _ | ⟨r, rs⟩
    · have hd : dropTrailingBlank [e] = [e] := by
        unfold dropTrailingBlank
        rw [if_neg hene]
      rw [hd]
      exact Fix.item _ _ _ _ _ _ hi hf hc hrest
    · rw [dropTrailingBlank_cons₂]
      exact Fix.item _ _ _ _ _ _ hi hf hc ih
  | text inL lB lT ne e rest hi hnb hc hrest ih =>
    have hene : e ≠ [] := fun hx => hnb (by rw [hx]; rfl)
    rcases rest with _ | ⟨r, rs⟩
    · have hd : dropTrailingBlank [e] = [e] := by
        unfold dropTrailingBlank
        rw [if_neg hene]
      rw [hd]
      exact Fix.text _ _ _ _ _ _ hi hnb hc hrest
    · rw [dropTrailingBlank_cons₂]
      exact Fix.text _ _ _ _ _ _ hi hnb hc ih

theorem fix_adjustLast {inL lB lT ne : Bool} {S : List (List Char)}
    (h : Fix inL lB lT ne S) :
    bareMarker (jsTrimEnd (getLastLine S)) = false →
    Fix inL lB lT ne (adjustLast S) := by
  induction h with
  | nil => intro _; exact Fix.nil ..
  | blank inL lT rest hrest ih =>
    intro hb
    rcases rest with _ | ⟨r, rs⟩
    · exact Fix.blank _ _ _ hrest
    · rw [adjustLast_cons₂]
      exact Fix.blank _ _ _ (ih hb)
  | item inL lB lT ne e rest hi hf hc hrest ih =>
    intro hb
    rcases rest with _ | ⟨r, rs⟩
    · have hnbk : jsTrim e ≠ [] := item_not_blank hi
      have hene : e ≠ [] := fun hx => hnbk (by rw [hx]; rfl)
      exact Fix.item _ _ _ _ _ _ (isListItem_trimEnd hi hf hb)
        (flush_trimEnd hf hene) hc hrest
    · rw [adjustLast_cons₂]
      exact Fix.item _ _ _ _ _ _ hi hf hc (ih hb)
  | text inL lB lT ne e rest hi hnb hc hrest ih =>
    intro hb
    rcases rest with _ | ⟨r, rs⟩
    · have hi2 : isListItem (jsTrimEnd e) = false := by
        rcases hx : isListItem (jsTrimEnd e) with _ | _
        · rfl
        · exact absurd (isListItem_of_trimEnd hx)
            (by rw [hi]; exact Bool.false_ne_true)
      exact Fix.text _ _ _ _ _ _ hi2
        (by rw [jsTrim_trimEnd]; exact hnb) hc hrest
    · rw [adjustLast_cons₂]
      exact Fix.text _ _ _ _ _ _ hi hnb hc (ih hb)

theorem fix_drop_struct {inL lB lT ne : Bool} {S : List (List Char)}
    (h : Fix inL lB lT ne S) :
    (dropTrailingBlank S = [] ∧ (S = [] ∨ S = [[]])) ∨
    (dropTrailingBlank S ≠ [] ∧
      jsTrim (getLastLine (dropTrailingBlank S)) ≠ []) := by
  induction h with
  | nil => exact Or.inl ⟨rfl, Or.inl rfl⟩
  | blank inL lT rest hrest ih =>
    rcases rest with _ | ⟨r, rs⟩
    · exact Or.inl ⟨rfl, Or.inr rfl⟩
    · rcases ih with ⟨hd, hS⟩ | ⟨hne, hlast⟩
      · rcases hS with hS | hS
        · exact absurd hS (by simp)
        · rw [hS] at hrest
          exact absurd hrest (fun hx => fix_blank_head_false hx)
      · right
        rw [dropTrailingBlank_cons₂]
        refine ⟨by simp, ?_⟩
        rcases hD : dropTrailingBlank (r :: rs) with _ | ⟨d, ds⟩
        · exact absurd hD hne
        · rw [getLastLine_cons₂, ← hD]
          exact hlast
  | item inL lB lT ne e rest hi hf hc hrest ih =>
    have hnbk : jsTrim e ≠ [] := item_not_blank hi
    have hene : e ≠ [] := fun hx => hnbk (by rw [hx]; rfl)
    rcases rest with _ | ⟨r, rs⟩
    · right
      have hd : dropTrailingBlank [e] = [e] := by
        unfold dropTrailingBlank
        rw [if_neg hene]
      rw [hd]
      exact ⟨by simp, hnbk⟩
    · rw [dropTrailingBlank_cons₂]
      rcases ih with ⟨hd, hS⟩ | ⟨hne, hlast⟩
      · rw [hd]
        exact Or.inr ⟨by simp, hnbk⟩
      · right
        refine ⟨by simp, ?_⟩
        rcases hD : dropTrailingBlank (r :: rs) with _ | ⟨d, ds⟩
        · exact absurd hD hne
        · rw [getLastLine_cons₂, ← hD]
          exact hlast
  | text inL lB lT ne e rest hi hnb hc hrest ih =>
    have hene : e ≠ [] := fun hx => hnb (by rw [hx]; rfl)
    rcases rest with _ | ⟨r, rs⟩
    · right
      have hd : dropTrailingBlank [e] = [e] := by
        unfold dropTrailingBlank
        rw [if_neg hene]
      rw [hd]
      exact ⟨by simp, hnb⟩
    · rw [dropTrailingBlank_cons₂]
      rcases ih with ⟨hd, hS⟩ | ⟨hne, hlast⟩
      · rw [hd]
        exact Or.inr ⟨by simp, hnb⟩
      · right
        refine ⟨by simp, ?_⟩
        rcases hD : dropTrailingBlank (r :: rs) with _ | ⟨d, ds⟩
        · exact absurd hD hne
        · rw [getLastLine_cons₂, ← hD]
          exact hlast

end Hypefury

namespace Hypefury

theorem no_newline_jsTrimStart {x : List Char} (h : '\n' ∉ x) :
    '\n' ∉ jsTrimStart x := by
  induction x with
  | nil => exact h
  | cons c rest ih =>
    unfold jsTrimStart
    rw [List.dropWhile_cons]
    by_cases hw : jsWhitespace c = true
    · rw [if_pos hw]
      exact ih (fun hm => h (List.mem_cons_of_mem c hm))
    · rw [if_neg hw]
      exact h

theorem no_newline_jsTrimEnd {x : List Char} (h : '\n' ∉ x) :
    '\n' ∉ jsTrimEnd x := by
  obtain ⟨w, hw1, _⟩ := jsTrimEnd_decomp x
  intro hm
  exact h (by rw [hw1]; exact List.mem_append_left w hm)

theorem mem_blank_pad {l : List Char} {c : Bool}
    (h : l ∈ (if c = true then [[]] else ([] : List (List Char)))) :
    l = [] := by
  by_cases hc : c = true
  · rw [if_pos hc] at h
    simpa using h
  · rw [if_neg hc] at h
    exact absurd h (List.not_mem_nil l)

theorem mem_blank_pad₂ {l : List Char} {c d : Bool}
    (h : l ∈ (if c = true then [[]]
              else if d = true then [[]]
              else ([] : List (List Char)))) :
    l = [] := by
  by_cases hc : c = true
  · rw [if_pos hc] at h
    simpa using h
  · rw [if_neg hc] at h
    exact mem_blank_pad h

theorem fmtGo_no_newline : ∀ (lines : List (List Char)) (inL lB lT ne : Bool),
    (∀ x ∈ lines, '\n' ∉ x) →
    ∀ l ∈ fmtGo inL lB lT ne lines, '\n' ∉ l := by
  intro lines
  induction lines with
  | nil =>
    intro inL lB lT ne _ l hl
    exact absurd hl (List.not_mem_nil l)
  | cons line rest ih =>
    intro inL lB lT ne h l hl
    have hline : '\n' ∉ line := h line (List.mem_cons_self line rest)
    have hrest : ∀ x ∈ rest, '\n' ∉ x :=
      fun x hx => h x (List.mem_cons_of_mem line hx)
    by_cases hb : jsTrim line = []
    · by_cases hsk : lB = true ∨ ne = false
      · rw [fmtGo_blank_skip hb hsk rest] at hl
        exact ih inL lB lT ne hrest l hl
      · push_neg at hsk
        obtain ⟨h1, h2⟩ := hsk
        have h1' : lB = false := by
          rcases lB with _ | _
          · rfl
          · exact absurd rfl h1
        have h2' : ne = true := by
          rcases ne with _ | _
          · exact absurd rfl h2
          · rfl
        subst h1'
        subst h2'
        rw [fmtGo_blank_push hb] at hl
        rcases List.mem_cons.1 hl with hx | hx
        · rw [hx]
          simp
        · exact ih inL true lT true hrest l hx
    · by_cases hI : isListItem line = true
      · rw [fmtGo_item_eq hI] at hl
        rcases List.mem_append.1 hl with hx | hx
        · rw [mem_blank_pad hx]
          simp
        · rcases List.mem_cons.1 hx with hy | hy
          · rw [hy]
            exact no_newline_jsTrimStart hline
          · exact ih true false false true hrest l hy
      · have hI' : isListItem line = false := by
          rcases hx : isListItem line with _ | _
          · rfl
          · exact absurd hx hI
        rw [fmtGo_text_eq hI' hb] at hl
        rcases List.mem_append.1 hl with hx | hx
        · rw [mem_blank_pad₂ hx]
          simp
        · rcases List.mem_cons.1 hx with hy | hy
          · rw [hy]
            exact hline
          · exact ih false false true true hrest l hy

theorem mem_adjustFirst {l : List Char} {S : List (List Char)}
    (h : l ∈ adjustFirst S) : ∃ x ∈ S, l = x ∨ l = jsTrimStart x := by
  rcases S with _ | ⟨x, rest⟩
  · exact absurd h (List.not_mem_nil l)
  · rcases List.mem_cons.1 h with h1 | h1
    · exact ⟨x, List.mem_cons_self x rest, Or.inr h1⟩
    · exact ⟨l, List.mem_cons_of_mem x h1, Or.inl rfl⟩

theorem mem_dropTrailingBlank {l : List Char} :
    ∀ {S : List (List Char)}, l ∈ dropTrailingBlank S → l ∈ S := by
  intro S
  induction S with
  | nil => exact fun h => h
  | cons e rest ih =>
    intro h
    rcases rest with _ | ⟨r, rs⟩
    · by_cases he : e = []
      · rw [show dropTrailingBlank [e] = [] by unfold dropTrailingBlank; rw [if_pos he]] at h
        exact absurd h (List.not_mem_nil l)
      · rw [show dropTrailingBlank [e] = [e] by unfold dropTrailingBlank; rw [if_neg he]] at h
        exact h
    · rw [dropTrailingBlank_cons₂] at h
      rcases List.mem_cons.1 h with h1 | h1
      · rw [h1]
        exact List.mem_cons_self e (r :: rs)
      · exact List.mem_cons_of_mem e (ih h1)

theorem mem_adjustLast {l : List Char} :
    ∀ {S : List (List Char)}, l ∈ adjustLast S →
      ∃ x ∈ S, l = x ∨ l = jsTrimEnd x := by
  intro S
  induction S with
  | nil => exact fun h => absurd h (List.not_mem_nil l)
  | cons e rest ih =>
    intro h
    rcases rest with _ | ⟨r, rs⟩
    · rcases List.mem_cons.1 h with h1 | h1
      · exact ⟨e, List.mem_cons_self e [], Or.inr h1⟩
      · exact absurd h1 (List.not_mem_nil l)
    · rw [adjustLast_cons₂] at h
      rcases List.mem_cons.1 h with h1 | h1
      · exact ⟨e, List.mem_cons_self e (r :: rs), Or.inl h1⟩
      · obtain ⟨x, hx1, hx2⟩ := ih h1
        exact ⟨x, List.mem_cons_of_mem e hx1, hx2⟩

end Hypefury

namespace Hypefury

/-- C6 (amended): `formatPost` is idempotent on every input whose
formatted output does not end in a bare list-marker line (a lone bullet
glyph, or digits followed directly by `.` or `)`):
if `bareMarker (lastLine (formatPost x)) = false` then
`formatPost (formatPost x) = formatPost x`.  The companion counterexample
theorem shows the proviso cannot be dropped. -/
theorem formatPost_idempotent_of_no_bare_tail (x : List Char)
    (h : bareMarker (lastLine (formatPost x)) = false) :
    formatPost (formatPost x) = formatPost x := by
  rcases hR : fmtGo false false false false (splitLines x) with _ | ⟨l0, rest⟩
  · have hfx : formatPost x = [] := by
      unfold formatPost
      rw [hR]
      rfl
    rw [hfx]
    rfl
  · have hfix : Fix false false false false (l0 :: rest) := by
      rw [← hR]
      exact fmtGo_fix (splitLines x) false false false false
        (fun hx => by rcases hx with hx | hx <;> exact hx)
    have hnlR : ∀ l ∈ (l0 :: rest), '\n' ∉ l := by
      rw [← hR]
      exact fmtGo_no_newline (splitLines x) false false false false
        (splitLines_no_newline x)
    have hhd : jsTrim l0 ≠ [] := by
      cases hfix with
      | item inL lB lT ne e r hi hf hc hrest => exact item_not_blank hi
      | text inL lB lT ne e r hi hnb hc hrest => exact hnb
    have hfixA : Fix false false false false (adjustFirst (l0 :: rest)) :=
      fix_adjustFirst hfix
    have hAeq : adjustFirst (l0 :: rest) = jsTrimStart l0 :: rest := rfl
    have hfixD :
        Fix false false false false
          (dropTrailingBlank (adjustFirst (l0 :: rest))) :=
      fix_dropTrailingBlank hfixA
    have hDfacts : dropTrailingBlank (adjustFirst (l0 :: rest)) ≠ [] ∧
        jsTrim (getLastLine (dropTrailingBlank (adjustFirst (l0 :: rest)))) ≠ [] := by
      rcases fix_drop_struct hfixA with ⟨hd, hS⟩ | hgood
      · exfalso
        rcases hS with hS | hS
        · rw [hAeq] at hS
          simp at hS
        · rw [hAeq] at hS
          injection hS with h1 h2
          exact hhd (by unfold jsTrim; rw [h1]; rfl)
      · exact hgood
    obtain ⟨hDne1, hDlast⟩ := hDfacts
    have hy : formatPost x = joinLines (trimEdges (l0 :: rest)) := by
      unfold formatPost
      rw [hR]
      unfold jsTrim
      rw [jsTrimStart_join rest (jsTrimStart_ne_nil_of_trim hhd),
        show (jsTrimStart l0 :: rest) = adjustFirst (l0 :: rest) from rfl,
        ← jsTrimEnd_join_dropBlank (adjustFirst (l0 :: rest))]
      exact jsTrimEnd_join _ hDne1 (jsTrimEnd_ne_nil_of_trim hDlast)
    have hnlE : ∀ l ∈ trimEdges (l0 :: rest), '\n' ∉ l := by
      intro l hl
      obtain ⟨u, hu1, hu2⟩ := mem_adjustLast hl
      obtain ⟨v, hv1, hv2⟩ := mem_adjustFirst (mem_dropTrailingBlank hu1)
      have hv : '\n' ∉ v := hnlR v hv1
      have hu : '\n' ∉ u := by
        rcases hv2 with h2 | h2
        · rw [h2]
          exact hv
        · rw [h2]
          exact no_newline_jsTrimStart hv
      rcases hu2 with h2 | h2
      · rw [h2]
        exact hu
      · rw [h2]
        exact no_newline_jsTrimEnd hu
    have hEne : trimEdges (l0 :: rest) ≠ [] := adjustLast_ne_nil hDne1
    have hsplit : splitLines (formatPost x) = trimEdges (l0 :: rest) := by
      rw [hy]
      exact split_join _ hEne hnlE
    have hlastE : lastLine (formatPost x) =
        jsTrimEnd (getLastLine (dropTrailingBlank (adjustFirst (l0 :: rest)))) := by
      unfold lastLine
      rw [hsplit]
      exact getLastLine_adjustLast _ hDne1
    rw [hlastE] at h
    have hfixE : Fix false false false false (trimEdges (l0 :: rest)) :=
      fix_adjustLast hfixD h
    have hidem : jsTrim (formatPost x) = formatPost x := by
      unfold formatPost
      rw [jsTrim_idem]
    have hgoal : formatPost (formatPost x) =
        jsTrim (joinLines
          (fmtGo false false false false (splitLines (formatPost x)))) := rfl
    rw [hgoal, hsplit, fmtGo_of_fix hfixE, ← hy, hidem]

/-- Witness for the amended idempotence theorem at the concrete input
`"- a\nb"`, whose formatted output ends in the prose line `b`. -/
theorem formatPost_idempotent_witness :
    bareMarker (lastLine (formatPost ['-', ' ', 'a', '\n', 'b'])) = false ∧
      formatPost (formatPost ['-', ' ', 'a', '\n', 'b']) =
        formatPost ['-', ' ', 'a', '\n', 'b'] :=
  ⟨by decide,
    formatPost_idempotent_of_no_bare_tail ['-', ' ', 'a', '\n', 'b'] (by decide)⟩

end Hypefury
